import Mathlib

/-!
Verification development for the heaven-bml tree-kanban engine
(`src/heaven_bml/tree_kanban.py`).

The Python source is shallowly embedded: pure helpers become Lean
functions on `List Int` / `String`; the GitHub label store becomes an
explicit `Store` (a list of issues, each a number with a label list);
the label-mutating operations become state-passing functions.
Machine-external effects (subprocess return codes) are parameters.
-/

namespace TreeKanban

/-! ## Python primitives used by the source -/

/-! # Definitions (shallow embedding of the source) -/

/-- Python `str.split('.')` on a character list: always returns at least one
(possibly empty) piece; `"" -> [""]`, `"1." -> ["1",""]`. -/
def splitOnDot : List Char → List (List Char)
  | [] => [[]]
  | c :: cs =>
    if c = '.' then [] :: splitOnDot cs
    else
      match splitOnDot cs with
      | t :: ts => (c :: t) :: ts
      | [] => [[c]]

/-- Decimal digit characters accumulated to a `Nat`. -/
def digitsToNat (cs : List Char) : Nat :=
  cs.foldl (fun a c => a * 10 + (c.toNat - 48)) 0

/-- Python `int(s)`: optional surrounding whitespace, optional sign, then a
nonempty run of decimal digits; anything else raises `ValueError` (here:
`none`).  (Unicode digits and `_` digit grouping are not modelled.) -/
def pythonInt? (s : List Char) : Option Int :=
  let t := ((s.dropWhile Char.isWhitespace).reverse.dropWhile Char.isWhitespace).reverse
  match t with
  | '-' :: ds => if ds ≠ [] ∧ ds.all Char.isDigit then some (-(digitsToNat ds : Int)) else none
  | '+' :: ds => if ds ≠ [] ∧ ds.all Char.isDigit then some (digitsToNat ds : Int) else none
  | ds => if ds ≠ [] ∧ ds.all Char.isDigit then some (digitsToNat ds : Int) else none

/-- `[int(part) for part in parts]`: left-to-right, failing at the first
piece that is not an integer (Python's `ValueError`). -/
def intParts : List (List Char) → Option (List Int)
  | [] => some []
  | p :: ps =>
    match pythonInt? p, intParts ps with
    | some i, some is => some (i :: is)
    | _, _ => none

/-- `parse_tree_priority`: `high`/`medium`/`low` aliases, else split on `.`
and parse each piece as an integer, falling back to the sentinel `[999]`. -/
def parse_tree_priority (priority_str : String) : List Int :=
  if priority_str = "high" then [1]
  else if priority_str = "medium" then [2]
  else if priority_str = "low" then [3]
  else
    match intParts (splitOnDot priority_str.toList) with
    | some l => l
    | none => [999]

def pyListLt : List Int → List Int → Bool
  | [], [] => false
  | [], _ :: _ => true
  | _ :: _, [] => false
  | a :: as, b :: bs =>
    if a < b then true
    else if b < a then false
    else pyListLt as bs

def insertBy (lt : α → α → Bool) (x : α) : List α → List α
  | [] => [x]
  | y :: ys => if lt y x then y :: insertBy lt x ys else x :: y :: ys

def sortBy (lt : α → α → Bool) : List α → List α
  | [] => []
  | x :: xs => insertBy lt x (sortBy lt xs)

/-- Python `str.startswith` / slicing, written over the character list so
that concrete instances reduce in the kernel. -/
def sStartsWith (s pre : String) : Bool :=
  pre.data.isPrefixOf s.data

/-- Python `s[n:]` (character-based slicing). -/
def sDrop (s : String) (n : Nat) : String :=
  ⟨s.data.drop n⟩

structure Issue where
  number : Nat
  title : String
  labels : List String
deriving DecidableEq

/-- `get_issue_priority` (lines 18-24): parse the first `priority-` label,
defaulting to the sentinel `[999]`. -/
def get_issue_priority (issue : Issue) : List Int :=
  match issue.labels.find? (fun l => sStartsWith l "priority-") with
  | some label => parse_tree_priority (sDrop label 9)
  | none => [999]

/-- `sort_issues_by_tree_priority` (lines 26-28): Python's stable `sorted`
with key `get_issue_priority`; keys are compared with `pyListLt`. -/
def sort_issues_by_tree_priority (issues : List Issue) : List Issue :=
  sortBy (fun a b => pyListLt (get_issue_priority a) (get_issue_priority b)) issues

/-! ## Prioritized issues and the insertion-key allocator -/

/-- The dict produced per issue by `get_all_prioritized_issues`
(lines 308-363). -/
structure PrioritizedIssue where
  number : Nat
  title : String
  priority : String
  priority_parsed : List Int
deriving DecidableEq

/-- `'.'.join(map(str, l))`. -/
def joinDotsInt (l : List Int) : String :=
  String.intercalate "." (l.map toString)

/-- `calculate_insertion_priority` (lines 365-422).  List indexing is
modelled with `Option` so that an out-of-bounds access (Python
`IndexError`) is `none`; the claim that no branch raises becomes the
theorem that the result is always `some`.  The floating-point midpoint
computed in the source has no effect on any returned value and is not
modelled.  The `if before_issue:` truthiness test is on a nonempty dict,
hence true whenever `before_issue` is not `None`. -/
def calculate_insertion_priority (issues : List PrioritizedIssue)
    (insert_position : Int) : Option String :=
  if issues = [] then some "1"
  else if insert_position ≤ 0 then do
    let first ← issues.head?
    let f0 ← (parse_tree_priority first.priority).head?
    if f0 > 1 then some (toString (f0 - 1)) else some "0.5"
  else if insert_position ≥ issues.length then do
    let last ← issues.getLast?
    let l0 ← (parse_tree_priority last.priority).head?
    some (toString (l0 + 1))
  else do
    let before_opt ← (if insert_position > 0 then
        (issues.get? (insert_position - 1).toNat).map some else some none)
    let after_issue ← issues.get? insert_position.toNat
    match before_opt with
    | some before_issue =>
      let before_priority := parse_tree_priority before_issue.priority
      let after_priority := parse_tree_priority after_issue.priority
      let b0 ← before_priority.head?
      let a0 ← after_priority.head?
      if b0 ≠ a0 then some (toString (b0 + 1))
      else if before_priority.length = after_priority.length then do
        let lastc ← before_priority.getLast?
        some (joinDotsInt (before_priority.dropLast ++ [lastc + 1]))
      else
        some (toString b0 ++ "."
          ++ toString (match before_priority with | _ :: s :: _ => s | _ => 1) ++ ".5")
    | none =>
      ((parse_tree_priority after_issue.priority).head?).map toString

/-- The allocator rules in the words of the (amended) claim: empty list →
`"1"`; front insertion → first root minus one, or the `"0.5"` placeholder;
back insertion → last root plus one; interior with differing roots →
before's root plus one; equal depth → before with last component
incremented; differing depths → `before.root . x . 5` where `x` is before's
second component when it has one and `1` otherwise. -/
def claim_allocator : List PrioritizedIssue → Int → String
  | [], _ => "1"
  | first :: rest, position =>
    let issues := first :: rest
    if position ≤ 0 then
      let f0 := (parse_tree_priority first.priority).headI
      if f0 > 1 then toString (f0 - 1) else "0.5"
    else if position ≥ issues.length then
      let l0 := (parse_tree_priority (issues.getLast (List.cons_ne_nil first rest)).priority).headI
      toString (l0 + 1)
    else
      let before := issues.getD (position - 1).toNat first
      let after := issues.getD position.toNat first
      let bp := parse_tree_priority before.priority
      let ap := parse_tree_priority after.priority
      if bp.headI ≠ ap.headI then toString (bp.headI + 1)
      else if bp.length = ap.length then
        joinDotsInt (bp.dropLast ++ [bp.getLastI + 1])
      else
        toString bp.headI ++ "."
          ++ toString (match bp with | _ :: s :: _ => s | _ => 1) ++ ".5"

/-! ## The label store and the move operations

The GitHub repository is modelled as the list of its open issues
(`Store`). `gh issue edit --add-label` is idempotent: adding a label the
issue already carries changes nothing. -/

abbrev Store := List Issue

def addLabel (labels : List String) (l : String) : List String :=
  if l ∈ labels then labels else labels ++ [l]

/-- The per-issue effect of `set_issue_tree_priority`: drop every
`priority-` label, then add the new one. -/
def withPriorityLabel (i : Issue) (p : String) : Issue :=
  { i with labels := addLabel (i.labels.filter (fun l => !(sStartsWith l "priority-"))) ("priority-" ++ p) }

/-- `set_issue_tree_priority` (lines 91-126) on the store: remove every
`priority-` label of the issue, then add the new one.  If the issue is
absent the `gh` add fails and the function returns `False` with the store
unchanged. -/
def set_issue_tree_priority (st : Store) (issue_number : Nat)
    (priority : String) : Store × Bool :=
  if st.any (fun i => i.number == issue_number) then
    (st.map (fun i =>
      if i.number == issue_number then withPriorityLabel i priority else i), true)
  else (st, false)

/-- Python `str.isdigit` on the characters of a label suffix. -/
def isPyDigits (cs : List Char) : Bool :=
  !cs.isEmpty && cs.all Char.isDigit

/-- The priority-label selection of `get_all_prioritized_issues`
(lines 331-347): collect all `priority-` suffixes, prefer the first whose
text with dots removed is all digits, else take the first. -/
def issue_priority_string (issue : Issue) : Option String :=
  let priority_labels :=
    (issue.labels.filter (fun l => sStartsWith l "priority-")).map (fun l => sDrop l 9)
  match priority_labels with
  | [] => none
  | p0 :: _ =>
    match priority_labels.filter (fun p => isPyDigits (p.toList.filter (fun c => c ≠ '.'))) with
    | n0 :: _ => some n0
    | [] => some p0

/-- One entry of `get_all_prioritized_issues`; `priority or 'none'` treats
both `None` and the empty string as falsy. -/
def to_prioritized (issue : Issue) : PrioritizedIssue :=
  let pr := match issue_priority_string issue with
    | none => "none"
    | some p => if p = "" then "none" else p
  { number := issue.number, title := issue.title, priority := pr,
    priority_parsed := parse_tree_priority pr }

/-- `get_all_prioritized_issues` (lines 308-363): every open issue, with
`'none'` for the unprioritized, stably sorted by parsed priority. -/
def get_all_prioritized_issues (st : Store) : List PrioritizedIssue :=
  sortBy (fun a b => pyListLt a.priority_parsed b.priority_parsed) (st.map to_prioritized)

/-- `insert_issue_at_position` (lines 424-437): compute the key for the
position, write it to the single moving issue.  The `none` branch is the
unreachable `IndexError` of the allocator. -/
def insert_issue_at_position (st : Store) (moving : PrioritizedIssue)
    (issues : List PrioritizedIssue) (insert_position : Int) : Store × Option String :=
  match calculate_insertion_priority issues insert_position with
  | none => (st, none)
  | some new_priority =>
    ((set_issue_tree_priority st moving.number new_priority).1, some new_priority)

/-- Find and remove the first matching element (the `pop(i)`/`break` loop
of the move operations). -/
def popFirst (p : α → Bool) : List α → Option (α × List α)
  | [] => none
  | x :: xs =>
    if p x then some (x, xs)
    else (popFirst p xs).map (fun r => (r.1, x :: r.2))

/-- `move_issue_above` (lines 439-471). -/
def move_issue_above (st : Store) (issue_id target_issue_id : Nat) :
    Store × Except String String :=
  let all_issues := get_all_prioritized_issues st
  let prioritized_only := all_issues.filter (fun i => i.priority ≠ "none")
  match popFirst (fun i => i.number == issue_id) prioritized_only with
  | none => (st, .error s!"Issue #{issue_id} not found or has no priority")
  | some (moving_issue, remaining) =>
    match remaining.findIdx? (fun i => i.number == target_issue_id) with
    | none => (st, .error s!"Target issue #{target_issue_id} not found")
    | some target_position =>
      match insert_issue_at_position st moving_issue remaining target_position with
      | (st2, some new_priority) =>
        (st2, .ok s!"Moved issue #{issue_id} above #{target_issue_id} | List position: {target_position + 1} | Priority: {new_priority}")
      | (st2, none) => (st2, .error "IndexError")

/-- `move_issue_below` (lines 473-505): insert after the target. -/
def move_issue_below (st : Store) (issue_id target_issue_id : Nat) :
    Store × Except String String :=
  let all_issues := get_all_prioritized_issues st
  let prioritized_only := all_issues.filter (fun i => i.priority ≠ "none")
  match popFirst (fun i => i.number == issue_id) prioritized_only with
  | none => (st, .error s!"Issue #{issue_id} not found or has no priority")
  | some (moving_issue, remaining) =>
    match remaining.findIdx? (fun i => i.number == target_issue_id) with
    | none => (st, .error s!"Target issue #{target_issue_id} not found")
    | some idx =>
      let target_position := idx + 1
      match insert_issue_at_position st moving_issue remaining target_position with
      | (st2, some new_priority) =>
        (st2, .ok s!"Moved issue #{issue_id} below #{target_issue_id} | List position: {target_position + 1} | Priority: {new_priority}")
      | (st2, none) => (st2, .error "IndexError")

/-- `move_issue_between` (lines 507-550): the single `if/elif` scan records
the last matching index for each of `above` and `below`. -/
def move_issue_between (st : Store) (issue_id above_issue_id below_issue_id : Nat) :
    Store × Except String String :=
  let all_issues := get_all_prioritized_issues st
  let prioritized_only := all_issues.filter (fun i => i.priority ≠ "none")
  match popFirst (fun i => i.number == issue_id) prioritized_only with
  | none => (st, .error s!"Issue #{issue_id} not found or has no priority")
  | some (moving_issue, remaining) =>
    let positions := remaining.enum.foldl (fun ab p =>
        if p.2.number == above_issue_id then (some p.1, ab.2)
        else if p.2.number == below_issue_id then (ab.1, some p.1)
        else ab) ((none : Option Nat), (none : Option Nat))
    match positions.1, positions.2 with
    | none, _ => (st, .error s!"Above issue #{above_issue_id} not found")
    | some _, none => (st, .error s!"Below issue #{below_issue_id} not found")
    | some above_position, some below_position =>
      if above_position ≥ below_position then
        (st, .error "Above issue must have higher priority than below issue")
      else
        let insert_position := above_position + 1
        match insert_issue_at_position st moving_issue remaining insert_position with
        | (st2, some new_priority) =>
          (st2, .ok s!"Moved issue #{issue_id} between #{above_issue_id} and #{below_issue_id} | List position: {insert_position + 1} | Priority: {new_priority}")
        | (st2, none) => (st2, .error "IndexError")

/-! ## Status inheritance (tree_kanban.py lines 129-267) -/

/-- `'.'.join(...)` over character-list pieces. -/
def joinDotsChars : List (List Char) → List Char
  | [] => []
  | [p] => p
  | p :: q :: ps => p ++ '.' :: joinDotsChars (q :: ps)

/-- `get_parent_priority` (lines 129-132): drop the last dot component;
`None` for a single-component key. -/
def get_parent_priority (priority : String) : Option String :=
  let parts := splitOnDot priority.toList
  if parts.length > 1 then some ⟨joinDotsChars parts.dropLast⟩ else none

/-- `find_issue_by_priority` (lines 134-146): the first issue carrying the
exact label `priority-<target>`, else `None`. -/
def find_issue_by_priority (st : Store) (target_priority : String) : Option Nat :=
  (st.find? (fun i => i.labels.contains ("priority-" ++ target_priority))).map
    (fun i => i.number)

/-- `get_issue_status` (lines 148-163): the first `status-` label's suffix;
`'backlog'` when there is none or the lookup fails. -/
def get_issue_status (st : Store) (issue_number : Nat) : String :=
  match st.find? (fun i => i.number == issue_number) with
  | none => "backlog"
  | some i =>
    match i.labels.find? (fun l => sStartsWith l "status-") with
    | some l => sDrop l 7
    | none => "backlog"

/-- First step of `set_issue_status`: add the new `status-` label. -/
def withStatusAdded (i : Issue) (status : String) : Issue :=
  { i with labels := addLabel i.labels ("status-" ++ status) }

/-- Second step of `set_issue_status`: best-effort removal of every other
`status-` label. -/
def withOldStatusesRemoved (i : Issue) (status : String) : Issue :=
  { i with labels := i.labels.filter (fun l =>
      !(sStartsWith l "status-" && l != ("status-" ++ status))) }

/-- `set_issue_status` (lines 206-247) on the store: the `gh` add fails
when the issue is absent (`False`, store unchanged); otherwise the new
label is added first, then the stale `status-` labels are removed. -/
def set_issue_status (st : Store) (issue_number : Nat) (status : String) :
    Store × Bool :=
  if st.any (fun i => i.number == issue_number) then
    let st1 := st.map (fun i =>
      if i.number == issue_number then withStatusAdded i status else i)
    let st2 := st1.map (fun i =>
      if i.number == issue_number then withOldStatusesRemoved i status else i)
    (st2, true)
  else (st, false)

/-- `set_issue_tree_priority_with_inheritance` (lines 249-267): set the
priority, then, if the key has a parent held by some issue, copy that
issue's current status. -/
def set_issue_tree_priority_with_inheritance (st : Store) (issue_number : Nat)
    (priority : String) : Store × Bool :=
  match set_issue_tree_priority st issue_number priority with
  | (st1, false) => (st1, false)
  | (st1, true) =>
    match get_parent_priority priority with
    | none => (st1, true)
    | some parent_priority =>
      match find_issue_by_priority st1 parent_priority with
      | none => (st1, true)
      | some parent_issue =>
        let parent_status := get_issue_status st1 parent_issue
        ((set_issue_status st1 issue_number parent_status).1, true)

/-- The `status-` labels an issue currently carries (first issue with the
given number). -/
def statusLabels (st : Store) (n : Nat) : List String :=
  match st.find? (fun i => i.number == n) with
  | some i => i.labels.filter (fun l => sStartsWith l "status-")
  | none => []

/-! ## Batched reconciliation writes (lines 712-781)

`batch_update_priorities_and_statuses` shells out three batches of
`gh issue edit` commands; each batch's return code comes from the outside
world, so it is a parameter `rc` of the model. -/

inductive GhCmd where
  | removeLabel (issue_number : Nat) (label : String)
  | addLabel (issue_number : Nat) (label : String)
deriving DecidableEq

def withLabelRemoved (i : Issue) (l : String) : Issue :=
  { i with labels := i.labels.filter (fun x => x != l) }

def withLabelAdded (i : Issue) (l : String) : Issue :=
  { i with labels := addLabel i.labels l }

/-- Effect of one `gh issue edit` command; a command naming an absent
issue fails remotely and changes nothing. -/
def applyCmd (st : Store) : GhCmd → Store
  | .removeLabel n l => st.map (fun i => if i.number == n then withLabelRemoved i l else i)
  | .addLabel n l => st.map (fun i => if i.number == n then withLabelAdded i l else i)

def applyCmds (cmds : List GhCmd) (st : Store) : Store :=
  cmds.foldl applyCmd st

/-- Step 1 (lines 720-747): for every issue in the repo, read its labels
(`gh issue view`; a failed lookup is swallowed) and emit a removal for
every `priority-` or `status-` label found. -/
def removal_commands (all_repo_issues : List Nat) (st : Store) : List GhCmd :=
  all_repo_issues.bind (fun n =>
    match st.find? (fun i => i.number == n) with
    | none => []
    | some i =>
      (i.labels.filter (fun l => sStartsWith l "priority-" || sStartsWith l "status-")).map
        (fun l => GhCmd.removeLabel n l))

/-- Step 2 (lines 749-753): one add per priority update. -/
def priority_commands (priority_updates : List (Nat × String)) : List GhCmd :=
  priority_updates.map (fun u => GhCmd.addLabel u.1 ("priority-" ++ u.2))

/-- Step 3 (lines 755-759): one add per status update. -/
def status_commands (status_updates : List (Nat × String)) : List GhCmd :=
  status_updates.map (fun u => GhCmd.addLabel u.1 ("status-" ++ u.2))

/-- The phase loop (lines 761-781): an empty phase is skipped; otherwise
the batch runs (its effects land) and a non-zero return code aborts with
`False`, executing no later phase and rolling nothing back. -/
def run_phases (rc : List GhCmd → Int) : List (List GhCmd) → Store → Bool × Store
  | [], st => (true, st)
  | cmds :: rest, st =>
    if cmds = [] then run_phases rc rest st
    else
      let st2 := applyCmds cmds st
      if rc cmds ≠ 0 then (false, st2)
      else run_phases rc rest st2

/-- `batch_update_priorities_and_statuses` (lines 712-781). -/
def batch_update_priorities_and_statuses (rc : List GhCmd → Int)
    (all_repo_issues : List Nat) (priority_updates status_updates : List (Nat × String))
    (st : Store) : Bool × Store :=
  run_phases rc
    [removal_commands all_repo_issues st,
     priority_commands priority_updates,
     status_commands status_updates] st

/-! ## Slot-map reconciliation: priority assignment
(`sync_slot_map_to_priorities`, lines 586-709)

Only the priority computation is modelled here (`priority_map` as built by
`assign_priority` and the root loop); the later label writes go through
`batch_update_priorities_and_statuses` above.  The Python recursion depth
is bounded by the number of slot entries, so the model carries a fuel of
`length + 1` which the driver never exhausts. -/

structure SlotEntry where
  issueId : Nat
  parentSlot : Option Nat
deriving DecidableEq

/-- The frontend slot map: lanes (dict keys, unique) to ordered entries. -/
abbrev SlotMap := List (String × List SlotEntry)

def slotMapLookup (sm : SlotMap) (lane : String) : Option (List SlotEntry) :=
  (sm.find? (fun e => e.1 == lane)).map (fun e => e.2)

/-- `lane_order` (line 603): learn is the highest-priority stage. -/
def lane_order : List String :=
  ["learn", "measure", "build", "plan", "backlog", "blocked", "archived"]

structure SlotIssue where
  issueId : Nat
  parentSlot : Option Nat
  lane : String
  slotIndex : Nat
  lane_position : String
deriving DecidableEq

def mkSlotIssue (lane : String) (e : Nat × SlotEntry) : SlotIssue :=
  { issueId := e.2.issueId, parentSlot := e.2.parentSlot, lane := lane,
    slotIndex := e.1, lane_position := lane ++ "_" ++ toString e.1 }

/-- Lines 611-621: flatten the slot map across lanes in `lane_order`. -/
def flatten_slot_issues (sm : SlotMap) : List SlotIssue :=
  lane_order.flatMap (fun lane =>
    match slotMapLookup sm lane with
    | none => []
    | some entries => entries.enum.map (mkSlotIssue lane))

/-- Lines 623-630 (`lane_parent_map`): the recorded children of a parent's
lane position, in slot-map order. -/
def lane_parent_children (sis : List SlotIssue) (parent_key : String) : List String :=
  (sis.filter (fun i =>
    match i.parentSlot with
    | some nn => (i.lane ++ "_" ++ toString nn) == parent_key
    | none => false)).map (fun i => i.lane_position)

structure SyncState where
  priority_map : List (Nat × String)
  global_counter : Nat
deriving DecidableEq

/-- Python dict update: replace in place when the key exists, else append. -/
def dictSet (m : List (Nat × String)) (k : Nat) (v : String) : List (Nat × String) :=
  if m.any (fun kv => kv.1 == k) then
    m.map (fun kv => if kv.1 == k then (k, v) else kv)
  else m ++ [(k, v)]

def dictGet (m : List (Nat × String)) (k : Nat) : Option String :=
  (m.find? (fun kv => kv.1 == k)).map (fun kv => kv.2)

/-- Lines 645-647: `existing_children` — every already-assigned value that
extends `parent_priority` by a dot (all descendants, not only direct
children). -/
def countChildren (m : List (Nat × String)) (parent_priority : String) : Nat :=
  ((m.map (fun kv => kv.2)).filter
    (fun v => sStartsWith v (parent_priority ++ "."))).length

/-- `assign_priority` (lines 636-656): a root takes the global counter, a
child takes the parent key extended by `countChildren + 1`; the entry is
recorded and the recorded children are processed recursively in order (the
inner fold is the `for child_pos in lane_parent_map[...]` loop; a `find?`
miss is unreachable because every recorded position names a flattened
entry).  The fuel bounds the recursion depth; the driver passes more fuel
than any parent chain can consume. -/
def assign_priority (sis : List SlotIssue) : Nat → SlotIssue → Option String → SyncState → SyncState
  | 0, _, _, st => st
  | fuel + 1, issue, parent_priority, st =>
    let priority :=
      match parent_priority with
      | none => toString st.global_counter
      | some pp => pp ++ "." ++ toString (countChildren st.priority_map pp + 1)
    let st1 :=
      match parent_priority with
      | none => { st with global_counter := st.global_counter + 1 }
      | some _ => st
    let st2 := { st1 with priority_map := dictSet st1.priority_map issue.issueId priority }
    (lane_parent_children sis issue.lane_position).foldl
      (fun acc child_pos =>
        match sis.find? (fun i => i.lane_position == child_pos) with
        | some child => assign_priority sis fuel child (some priority) acc
        | none => acc) st2

/-- Stable sort by `slotIndex` (line 662). -/
def sortBySlotIndex (l : List SlotIssue) : List SlotIssue :=
  sortBy (fun a b => a.slotIndex < b.slotIndex) l

/-- The root loop body for one lane (lines 659-664). -/
def process_roots (sis : List SlotIssue) (fuel : Nat) (roots : List SlotIssue)
    (st : SyncState) : SyncState :=
  roots.foldl (fun st issue => assign_priority sis fuel issue none st) st

/-- All root entries in processing order: lanes in `lane_order`, roots of
each lane in slot order. -/
def root_order (sm : SlotMap) : List SlotIssue :=
  lane_order.flatMap (fun lane =>
    sortBySlotIndex ((flatten_slot_issues sm).filter
      (fun i => i.lane == lane && i.parentSlot == none)))

/-- The `priority_map` computed by `sync_slot_map_to_priorities`
(lines 632-664). -/
def sync_priority_map (sm : SlotMap) : List (Nat × String) :=
  let sis := flatten_slot_issues sm
  let fuel := sis.length + 1
  (lane_order.foldl (fun st lane =>
      process_roots sis fuel (sortBySlotIndex (sis.filter
        (fun i => i.lane == lane && i.parentSlot == none))) st)
    { priority_map := [], global_counter := 1 }).priority_map

/-! ### end of current definitions -/

/-! # Theorems -/

theorem splitOnDot_ne_nil (cs : List Char) : splitOnDot cs ≠ [] := by
  induction cs with
  | nil => simp [splitOnDot]
  | cons c cs ih =>
    simp only [splitOnDot]
    split
    · simp
    · split <;> simp_all

theorem intParts_length {ps : List (List Char)} {l : List Int}
    (h : intParts ps = some l) : l.length = ps.length := by
  induction ps generalizing l with
  | nil => simp [intParts] at h; simp [← h]
  | cons p ps ih =>
    simp only [intParts] at h
    split at h
    · cases h; simp [ih ‹intParts ps = some _›]
    · cases h

theorem parse_tree_priority_ne_nil (s : String) : parse_tree_priority s ≠ [] := by
  unfold parse_tree_priority
  split
  · simp
  split
  · simp
  split
  · simp
  split
  · next l h =>
    intro hnil
    subst hnil
    have := intParts_length h
    exact splitOnDot_ne_nil s.toList (List.length_eq_zero.mp this.symm)
  · simp

/-! ## Properties of the Python list comparison -/

theorem pyListLt_irrefl (a : List Int) : pyListLt a a = false := by
  induction a with
  | nil => rfl
  | cons x xs ih => simp [pyListLt, ih]

theorem pyListLt_trichotomy (a b : List Int) :
    pyListLt a b = true ∨ a = b ∨ pyListLt b a = true := by
  induction a generalizing b with
  | nil => cases b <;> simp [pyListLt]
  | cons x xs ih =>
    cases b with
    | nil => simp [pyListLt]
    | cons y ys =>
      rcases lt_trichotomy x y with h | h | h
      · left; simp [pyListLt, h]
      · subst h
        rcases ih ys with h2 | h2 | h2
        · left; simp [pyListLt, h2]
        · right; left; simp [h2]
        · right; right; simp [pyListLt, h2]
      · right; right; simp [pyListLt, h]

theorem pyListLt_trans {a b c : List Int} (h1 : pyListLt a b = true)
    (h2 : pyListLt b c = true) : pyListLt a c = true := by
  induction a generalizing b c with
  | nil =>
    cases b with
    | nil => exact absurd h1 (by simp [pyListLt])
    | cons y ys =>
      cases c with
      | nil => exact absurd h2 (by simp [pyListLt])
      | cons z zs => simp [pyListLt]
  | cons x xs ih =>
    cases b with
    | nil => exact absurd h1 (by simp [pyListLt])
    | cons y ys =>
      cases c with
      | nil => exact absurd h2 (by simp [pyListLt])
      | cons z zs =>
        simp only [pyListLt] at h1 h2 ⊢
        split at h1
        · -- x < y
          next hxy =>
          split at h2
          · next hyz => simp [lt_trans hxy hyz]
          · split at h2
            · exact absurd h2 (by simp)
            · -- y = z
              next hyz hzy =>
              have : y = z := le_antisymm (le_of_not_lt hzy) (le_of_not_lt hyz)
              subst this
              simp [hxy]
        · split at h1
          · exact absurd h1 (by simp)
          · -- x = y
            next hxy hyx =>
            have hxyeq : x = y := le_antisymm (le_of_not_lt hyx) (le_of_not_lt hxy)
            subst hxyeq
            split at h2
            · next hxz => simp [hxz]
            · split at h2
              · exact absurd h2 (by simp)
              · next hxz hzx =>
                simp only [if_neg hxz, if_neg hzx]
                exact ih h1 h2

theorem pyListLt_asymm {a b : List Int} (h : pyListLt a b = true) :
    pyListLt b a = false := by
  by_contra hc
  have hba : pyListLt b a = true := by
    cases hab : pyListLt b a
    · exact absurd hab hc
    · rfl
  have := pyListLt_trans h hba
  simp [pyListLt_irrefl] at this

/-- `¬ lt b a` is transitive (needed for sortedness of the stable sort). -/
theorem pyListLt_not_lt_trans {a b c : List Int}
    (h1 : ¬ pyListLt b a = true) (h2 : ¬ pyListLt c b = true) :
    ¬ pyListLt c a = true := by
  intro hca
  rcases pyListLt_trichotomy a b with h | h | h
  · exact h2 (pyListLt_trans hca h)
  · subst h; exact h2 hca
  · exact h1 h

/-! ## Properties of the stable insertion sort -/

theorem insertBy_perm (lt : α → α → Bool) (x : α) (l : List α) :
    List.Perm (insertBy lt x l) (x :: l) := by
  induction l with
  | nil => rfl
  | cons y ys ih =>
    simp only [insertBy]
    split
    · exact ((ih.cons y).trans (List.Perm.swap x y ys))
    · rfl

theorem sortBy_perm (lt : α → α → Bool) (l : List α) : List.Perm (sortBy lt l) l := by
  induction l with
  | nil => rfl
  | cons x xs ih => exact (insertBy_perm lt x (sortBy lt xs)).trans (ih.cons x)

theorem insertBy_pairwise (lt : α → α → Bool)
    (hnt : ∀ a b c, ¬ lt b a = true → ¬ lt c b = true → ¬ lt c a = true)
    (hasym : ∀ a b, lt a b = true → ¬ lt b a = true)
    (x : α) (l : List α) (hl : l.Pairwise (fun a b => ¬ lt b a = true)) :
    (insertBy lt x l).Pairwise (fun a b => ¬ lt b a = true) := by
  induction l with
  | nil => simp [insertBy]
  | cons y ys ih =>
    rcases List.pairwise_cons.mp hl with ⟨hy, hys⟩
    simp only [insertBy]
    split
    · next hlt =>
      refine List.pairwise_cons.mpr ⟨?_, ih hys⟩
      intro z hz
      have hz' := (insertBy_perm lt x ys).mem_iff.mp hz
      rcases List.mem_cons.mp hz' with hzx | hzys
      · rw [hzx]; exact hasym y x hlt
      · exact hy z hzys
    · next hnlt =>
      refine List.pairwise_cons.mpr ⟨?_, hl⟩
      intro z hz
      rcases List.mem_cons.mp hz with hzy | hzys
      · subst hzy; exact hnlt
      · exact hnt x y z hnlt (hy z hzys)

theorem sortBy_pairwise (lt : α → α → Bool)
    (hnt : ∀ a b c, ¬ lt b a = true → ¬ lt c b = true → ¬ lt c a = true)
    (hasym : ∀ a b, lt a b = true → ¬ lt b a = true)
    (l : List α) :
    (sortBy lt l).Pairwise (fun a b => ¬ lt b a = true) := by
  induction l with
  | nil => simp [sortBy]
  | cons x xs ih => exact insertBy_pairwise lt hnt hasym x _ ih

/-- Python's list comparison is exactly the lexicographic order in which a
strict prefix sorts before its extensions. -/
theorem pyListLt_iff_lex (a b : List Int) :
    pyListLt a b = true ↔ List.Lex (· < ·) a b := by
  induction a generalizing b with
  | nil =>
    cases b with
    | nil =>
      constructor
      · intro h; exact absurd h (by simp [pyListLt])
      · intro h; nomatch h
    | cons y ys =>
      constructor
      · intro _; exact List.Lex.nil
      · intro _; rfl
  | cons x xs ih =>
    cases b with
    | nil =>
      constructor
      · intro h; exact absurd h (by simp [pyListLt])
      · intro h; nomatch h
    | cons y ys =>
      simp only [pyListLt]
      split
      · next h =>
        constructor
        · intro _; exact List.Lex.rel h
        · intro _; rfl
      · next h =>
        split
        · next h2 =>
          constructor
          · intro hfalse; exact absurd hfalse (by simp)
          · intro hl
            cases hl with
            | rel hr => exact absurd hr h
            | cons ht => exact absurd h2 (lt_irrefl _)
        · next h2 =>
          have hxy : x = y := le_antisymm (le_of_not_lt h2) (le_of_not_lt h)
          subst hxy
          rw [ih ys]
          constructor
          · exact fun hl => List.Lex.cons hl
          · intro hl
            cases hl with
            | rel hr => exact absurd hr (lt_irrefl x)
            | cons ht => exact ht

/-! ## Allocator totality and agreement with the claim's rules -/

theorem head?_eq_some_headI {l : List Int} (h : l ≠ []) :
    l.head? = some l.headI := by
  cases l with
  | nil => exact absurd rfl h
  | cons a t => rfl

theorem getLast?_eq_some_getLastI {l : List Int} (h : l ≠ []) :
    l.getLast? = some l.getLastI := by
  rw [List.getLastI_eq_getLast?, List.getLast?_eq_getLast l h]

theorem get?_eq_some_getD {l : List PrioritizedIssue} {n : Nat} (d : PrioritizedIssue)
    (h : n < l.length) : l.get? n = some (l.getD n d) := by
  rw [List.get?_eq_get h, List.getD_eq_get?, List.get?_eq_get h]
  rfl

/-- The allocator never raises and returns exactly what the (amended) claim
describes, on every input. -/
theorem calc_insertion_eq_claim (issues : List PrioritizedIssue) (insert_position : Int) :
    calculate_insertion_priority issues insert_position
      = some (claim_allocator issues insert_position) := by
  match issues with
  | [] => rfl
  | first :: rest =>
    have hne : (first :: rest : List PrioritizedIssue) ≠ [] := List.cons_ne_nil _ _
    simp only [calculate_insertion_priority, claim_allocator, if_neg hne]
    by_cases h1 : insert_position ≤ 0
    · simp only [if_pos h1]
      have hp := parse_tree_priority_ne_nil first.priority
      rw [List.head?_cons]
      simp only [Option.bind_eq_bind, Option.some_bind]
      rw [head?_eq_some_headI hp]
      simp only [Option.bind_eq_bind, Option.some_bind]
      by_cases h2 : (parse_tree_priority first.priority).headI > 1
      · simp [h2]
      · simp [h2]
    · simp only [if_neg h1]
      by_cases h2 : insert_position ≥ ((first :: rest).length : Int)
      · simp only [if_pos h2]
        rw [List.getLast?_eq_getLast _ hne]
        simp only [Option.bind_eq_bind, Option.some_bind]
        have hp := parse_tree_priority_ne_nil ((first :: rest).getLast hne).priority
        rw [head?_eq_some_headI hp]
        simp only [Option.bind_eq_bind, Option.some_bind]
      · simp only [if_neg h2]
        have hpos : insert_position > 0 := by omega
        have hlen : insert_position < ((first :: rest).length : Int) := by omega
        rw [if_pos hpos]
        have hblt : (insert_position - 1).toNat < (first :: rest).length := by omega
        have halt : insert_position.toNat < (first :: rest).length := by omega
        rw [get?_eq_some_getD first hblt]
        simp only [Option.bind_eq_bind, Option.map_some', Option.some_bind]
        rw [get?_eq_some_getD first halt]
        simp only [Option.bind_eq_bind, Option.some_bind]
        have hbp := parse_tree_priority_ne_nil
          ((first :: rest).getD (insert_position - 1).toNat first).priority
        have hap := parse_tree_priority_ne_nil
          ((first :: rest).getD insert_position.toNat first).priority
        rw [head?_eq_some_headI hbp]
        simp only [Option.bind_eq_bind, Option.some_bind]
        rw [head?_eq_some_headI hap]
        simp only [Option.bind_eq_bind, Option.some_bind]
        by_cases h3 : (parse_tree_priority ((first :: rest).getD (insert_position - 1).toNat first).priority).headI
            ≠ (parse_tree_priority ((first :: rest).getD insert_position.toNat first).priority).headI
        · rw [if_pos h3, if_pos h3]
        · rw [if_neg h3, if_neg h3]
          by_cases h4 : (parse_tree_priority ((first :: rest).getD (insert_position - 1).toNat first).priority).length
              = (parse_tree_priority ((first :: rest).getD insert_position.toNat first).priority).length
          · rw [if_pos h4, if_pos h4, getLast?_eq_some_getLastI hbp]
            simp only [Option.bind_eq_bind, Option.some_bind]
          · rw [if_neg h4, if_neg h4]

/-! ## Move-operation helper lemmas -/

theorem popFirst_eq_none {p : α → Bool} {l : List α}
    (h : ∀ x ∈ l, p x = false) : popFirst p l = none := by
  induction l with
  | nil => rfl
  | cons x xs ih =>
    simp only [popFirst, h x (List.mem_cons_self x xs)]
    rw [ih (fun y hy => h y (List.mem_cons_of_mem x hy))]
    rfl

theorem popFirst_sat {p : α → Bool} {l : List α} {x : α} {r : List α}
    (h : popFirst p l = some (x, r)) : p x = true := by
  induction l generalizing r with
  | nil => exact absurd h (by simp [popFirst])
  | cons y ys ih =>
    simp only [popFirst] at h
    split at h
    · next hy => cases h; assumption
    · next hy =>
      cases hrec : popFirst p ys with
      | none => rw [hrec] at h; cases h
      | some pr =>
        rw [hrec] at h
        cases h
        exact ih hrec

theorem findIdx?_eq_none {p : α → Bool} {l : List α}
    (h : ∀ x ∈ l, p x = false) : l.findIdx? p = none := by
  rw [List.findIdx?_eq_none_iff]
  intro x hx
  exact h x hx

theorem set_issue_tree_priority_fst_of_any (st : Store) (n : Nat) (p : String)
    (hany : st.any (fun i => i.number == n) = true) :
    (set_issue_tree_priority st n p).1
      = st.map (fun i => if i.number == n then withPriorityLabel i p else i) := by
  simp [set_issue_tree_priority, hany]

theorem set_issue_tree_priority_fst_of_not_any (st : Store) (n : Nat) (p : String)
    (hany : st.any (fun i => i.number == n) = false) :
    (set_issue_tree_priority st n p).1 = st := by
  simp [set_issue_tree_priority, hany]

/-- The single-issue priority write: lengths are preserved and every entry
either is untouched (other numbers) or has exactly its `priority-` labels
replaced by the new one. -/
theorem set_issue_tree_priority_pointwise (st : Store) (n : Nat) (p : String) :
    ((set_issue_tree_priority st n p).1).length = st.length
    ∧ ∀ j (hj : j < st.length) (hj2 : j < ((set_issue_tree_priority st n p).1).length),
        ((set_issue_tree_priority st n p).1).get ⟨j, hj2⟩ =
          (if (st.get ⟨j, hj⟩).number = n then withPriorityLabel (st.get ⟨j, hj⟩) p
           else st.get ⟨j, hj⟩) := by
  cases hany : st.any (fun i => i.number == n) with
  | true =>
    rw [set_issue_tree_priority_fst_of_any st n p hany] at *
    refine ⟨List.length_map st _, ?_⟩
    intro j hj hj2
    rw [List.get_map]
    by_cases hnum : (st.get ⟨j, hj⟩).number = n
    · simp [hnum]
    · simp [hnum]
  | false =>
    rw [set_issue_tree_priority_fst_of_not_any st n p hany]
    refine ⟨rfl, ?_⟩
    intro j hj hj2
    have hne : (st.get ⟨j, hj⟩).number ≠ n := by
      intro heq
      have hc : st.any (fun i => i.number == n) = true := by
        rw [List.any_eq_true]
        exact ⟨st.get ⟨j, hj⟩, List.get_mem st j hj, by simp only [beq_iff_eq]; exact heq⟩
      rw [hc] at hany
      cases hany
    have hne2 : st[j].number ≠ n := hne
    simp [hne2]

/-- On every input the insertion step writes the allocator's key for the
moving issue and returns it. -/
theorem insert_issue_at_position_eq (st : Store) (mv : PrioritizedIssue)
    (issues : List PrioritizedIssue) (pos : Int) :
    insert_issue_at_position st mv issues pos
      = ((set_issue_tree_priority st mv.number (claim_allocator issues pos)).1,
         some (claim_allocator issues pos)) := by
  unfold insert_issue_at_position
  rw [calc_insertion_eq_claim]

/-- Every successful move ends in the single-issue write path:
the final store is `set_issue_tree_priority` of the original at the
moving issue's id. -/
theorem move_success_shape {st : Store} {a b c : Nat} {st' : Store} {msg : String}
    (h : move_issue_above st a b = (st', Except.ok msg)
      ∨ move_issue_below st a b = (st', Except.ok msg)
      ∨ move_issue_between st a b c = (st', Except.ok msg)) :
    ∃ np, st' = (set_issue_tree_priority st a np).1 := by
  rcases h with h | h | h
  · simp only [move_issue_above] at h
    split at h
    · exact absurd (congrArg Prod.snd h) (by simp)
    · next mv rem hpop =>
      have hnum : mv.number = a := by
        have := popFirst_sat hpop
        simpa using this
      split at h
      · exact absurd (congrArg Prod.snd h) (by simp)
      · next tp hfind =>
        simp only [insert_issue_at_position_eq, Prod.mk.injEq] at h
        exact ⟨claim_allocator rem tp, by rw [← h.1, hnum]⟩
  · simp only [move_issue_below] at h
    split at h
    · exact absurd (congrArg Prod.snd h) (by simp)
    · next mv rem hpop =>
      have hnum : mv.number = a := by
        have := popFirst_sat hpop
        simpa using this
      split at h
      · exact absurd (congrArg Prod.snd h) (by simp)
      · next tp hfind =>
        simp only [insert_issue_at_position_eq, Prod.mk.injEq] at h
        exact ⟨claim_allocator rem (((tp + 1 : Nat)) : Int), by rw [← h.1, hnum]⟩
  · simp only [move_issue_between] at h
    split at h
    · exact absurd (congrArg Prod.snd h) (by simp)
    · next mv rem hpop =>
      have hnum : mv.number = a := by
        have := popFirst_sat hpop
        simpa using this
      split at h
      · exact absurd (congrArg Prod.snd h) (by simp)
      · exact absurd (congrArg Prod.snd h) (by simp)
      · next ap bp hpa hpb =>
        split at h
        · exact absurd (congrArg Prod.snd h) (by simp)
        · simp only [insert_issue_at_position_eq, Prod.mk.injEq] at h
          exact ⟨claim_allocator rem (((ap + 1 : Nat)) : Int), by rw [← h.1, hnum]⟩

/-! ## The `move_issue_between` position scan -/

theorem between_fold_fst_none (bid cid : Nat) (l : List (Nat × PrioritizedIssue))
    (init : Option Nat × Option Nat) (h : ∀ x ∈ l, x.2.number ≠ bid) :
    (l.foldl (fun ab p => if p.2.number == bid then (some p.1, ab.2)
        else if p.2.number == cid then (ab.1, some p.1) else ab) init).1 = init.1 := by
  induction l generalizing init with
  | nil => rfl
  | cons x xs ih =>
    simp only [List.foldl_cons]
    rw [if_neg (by simp [h x (List.mem_cons_self x xs)])]
    by_cases h2 : (x.2.number == cid) = true
    · rw [if_pos h2, ih _ (fun y hy => h y (List.mem_cons_of_mem x hy))]
    · rw [if_neg h2, ih _ (fun y hy => h y (List.mem_cons_of_mem x hy))]

theorem between_fold_snd_none (bid cid : Nat) (l : List (Nat × PrioritizedIssue))
    (init : Option Nat × Option Nat) (h : ∀ x ∈ l, x.2.number ≠ cid) :
    (l.foldl (fun ab p => if p.2.number == bid then (some p.1, ab.2)
        else if p.2.number == cid then (ab.1, some p.1) else ab) init).2 = init.2 := by
  induction l generalizing init with
  | nil => rfl
  | cons x xs ih =>
    simp only [List.foldl_cons]
    by_cases h1 : (x.2.number == bid) = true
    · rw [if_pos h1, ih _ (fun y hy => h y (List.mem_cons_of_mem x hy))]
    · rw [if_neg h1, if_neg (by simp [h x (List.mem_cons_self x xs)]),
        ih _ (fun y hy => h y (List.mem_cons_of_mem x hy))]

theorem between_fold_fst_isSome (bid cid : Nat) (l : List (Nat × PrioritizedIssue))
    (init : Option Nat × Option Nat) (h : init.1.isSome = true) :
    ((l.foldl (fun ab p => if p.2.number == bid then (some p.1, ab.2)
        else if p.2.number == cid then (ab.1, some p.1) else ab) init).1).isSome = true := by
  induction l generalizing init with
  | nil => exact h
  | cons x xs ih =>
    simp only [List.foldl_cons]
    by_cases h1 : (x.2.number == bid) = true
    · rw [if_pos h1]; exact ih _ (by simp)
    · rw [if_neg h1]
      by_cases h2 : (x.2.number == cid) = true
      · rw [if_pos h2]; exact ih _ h
      · rw [if_neg h2]; exact ih _ h

theorem between_fold_fst_some_of_match (bid cid : Nat)
    (l : List (Nat × PrioritizedIssue)) (init : Option Nat × Option Nat)
    (h : ∃ x ∈ l, x.2.number = bid) :
    ((l.foldl (fun ab p => if p.2.number == bid then (some p.1, ab.2)
        else if p.2.number == cid then (ab.1, some p.1) else ab) init).1).isSome = true := by
  induction l generalizing init with
  | nil => obtain ⟨x, hx, _⟩ := h; cases hx
  | cons x xs ih =>
    simp only [List.foldl_cons]
    by_cases h1 : (x.2.number == bid) = true
    · rw [if_pos h1]
      exact between_fold_fst_isSome bid cid xs _ (by simp)
    · obtain ⟨y, hy, hyb⟩ := h
      have hyxs : y ∈ xs := by
        rcases List.mem_cons.mp hy with hyx | hyxs
        · exact absurd (by rw [← hyx]; simp [hyb]) h1
        · exact hyxs
      rw [if_neg h1]
      by_cases h2 : (x.2.number == cid) = true
      · rw [if_pos h2]; exact ih _ ⟨y, hyxs, hyb⟩
      · rw [if_neg h2]; exact ih _ ⟨y, hyxs, hyb⟩

theorem snd_mem_of_mem_enum {l : List PrioritizedIssue} {x : Nat × PrioritizedIssue}
    (h : x ∈ l.enum) : x.2 ∈ l :=
  List.snd_mem_of_mem_enum h

/-! ## Label-prefix facts and status preservation -/

theorem isPrefixOf_self_append (l m : List Char) : l.isPrefixOf (l ++ m) = true := by
  induction l with
  | nil => simp [List.isPrefixOf]
  | cons c cs ih => simp [List.isPrefixOf, ih]

theorem priority_label_starts (p : String) :
    sStartsWith ("priority-" ++ p) "priority-" = true := by
  unfold sStartsWith
  rw [String.data_append]
  exact isPrefixOf_self_append _ _

theorem status_label_starts (s : String) :
    sStartsWith ("status-" ++ s) "status-" = true := by
  unfold sStartsWith
  rw [String.data_append]
  exact isPrefixOf_self_append _ _

theorem priority_label_not_status (p : String) :
    sStartsWith ("priority-" ++ p) "status-" = false := by
  unfold sStartsWith
  rw [String.data_append]
  rfl

theorem status_not_priority {l : String} (h : sStartsWith l "status-" = true) :
    sStartsWith l "priority-" = false := by
  unfold sStartsWith at h ⊢
  match hd : l.data with
  | [] => rw [hd] at h; cases h
  | c :: cs =>
    rw [hd] at h
    simp only [List.isPrefixOf] at h ⊢
    have hc : c = 's' := by
      cases hcc : ('s' == c) with
      | false => rw [hcc] at h; simp at h
      | true => exact (eq_of_beq hcc).symm
    subst hc
    rfl

theorem addLabel_mem (ls : List String) (l : String) : l ∈ addLabel ls l := by
  unfold addLabel
  split
  · assumption
  · simp

theorem addLabel_nodup {ls : List String} (l : String) (h : ls.Nodup) :
    (addLabel ls l).Nodup := by
  unfold addLabel
  split
  · exact h
  · next hmem =>
    rw [List.nodup_append]
    exact ⟨h, List.nodup_singleton l, by
      intro x hx hx2
      rw [List.mem_singleton.mp hx2] at hx
      exact hmem hx⟩

theorem filter_beq_of_nodup {l : List String} {t : String}
    (hnd : l.Nodup) (hmem : t ∈ l) : l.filter (fun x => x == t) = [t] := by
  induction l with
  | nil => cases hmem
  | cons x xs ih =>
    by_cases hxt : x = t
    · subst hxt
      rw [List.filter_cons_of_pos (by simp)]
      have hnin : x ∉ xs := (List.nodup_cons.mp hnd).1
      have hfil : xs.filter (fun y => y == x) = [] := by
        rw [List.filter_eq_nil]
        intro y hy
        simp only [beq_iff_eq]
        intro heq
        exact hnin (heq ▸ hy)
      rw [hfil]
    · have hmem2 : t ∈ xs := by
        rcases List.mem_cons.mp hmem with h1 | h2
        · exact absurd h1.symm hxt
        · exact h2
      rw [List.filter_cons_of_neg (by simp [hxt])]
      exact ih (List.nodup_cons.mp hnd).2 hmem2

/-- `find?` by issue number commutes with number-preserving maps. -/
theorem find?_number_map (st : Store) (f : Issue → Issue)
    (hf : ∀ i, (f i).number = i.number) (m : Nat) :
    (st.map f).find? (fun i => i.number == m)
      = (st.find? (fun i => i.number == m)).map f := by
  induction st with
  | nil => rfl
  | cons x xs ih =>
    simp only [List.map_cons, List.find?_cons, hf x]
    cases hb : (x.number == m) with
    | true => rfl
    | false => exact ih

theorem any_number_map (st : Store) (f : Issue → Issue)
    (hf : ∀ i, (f i).number = i.number) (m : Nat) :
    (st.map f).any (fun i => i.number == m) = st.any (fun i => i.number == m) := by
  induction st with
  | nil => rfl
  | cons x xs ih => simp only [List.map_cons, List.any_cons, hf x, ih]

theorem withPriorityLabel_number (i : Issue) (p : String) :
    (withPriorityLabel i p).number = i.number := rfl

theorem withStatusAdded_number (i : Issue) (s : String) :
    (withStatusAdded i s).number = i.number := rfl

theorem withOldStatusesRemoved_number (i : Issue) (s : String) :
    (withOldStatusesRemoved i s).number = i.number := rfl

/-- Rewriting the priority label leaves the `status-` labels untouched. -/
theorem statusFilter_withPriorityLabel (i : Issue) (p : String) :
    (withPriorityLabel i p).labels.filter (fun l => sStartsWith l "status-")
      = i.labels.filter (fun l => sStartsWith l "status-") := by
  unfold withPriorityLabel addLabel
  have hnotmem : ("priority-" ++ p)
      ∉ i.labels.filter (fun l => !(sStartsWith l "priority-")) := by
    intro hmem
    have := List.of_mem_filter hmem
    rw [priority_label_starts p] at this
    cases this
  rw [if_neg hnotmem]
  simp only [List.filter_append, List.filter_filter]
  have h1 : List.filter (fun l => sStartsWith l "status-") [("priority-" ++ p)] = [] := by
    simp [priority_label_not_status p]
  rw [h1, List.append_nil]
  exact List.filter_congr (fun x hx => by
    cases hs : sStartsWith x "status-" with
    | false => simp
    | true => simp [status_not_priority hs])

/-- `set_issue_tree_priority` changes no issue's `status-` labels. -/
theorem statusLabels_set_issue_tree_priority (st : Store) (n : Nat) (p : String)
    (m : Nat) :
    statusLabels ((set_issue_tree_priority st n p).1) m = statusLabels st m := by
  unfold set_issue_tree_priority
  by_cases hany : st.any (fun i => i.number == n) = true
  · rw [if_pos hany]
    unfold statusLabels
    rw [find?_number_map st _ (fun i => by
      by_cases h : (i.number == n) = true <;> simp [h, withPriorityLabel_number]) m]
    cases hfind : st.find? (fun i => i.number == m) with
    | none => rfl
    | some i =>
      simp only [Option.map_some']
      by_cases h : (i.number == n) = true
      · simp only [if_pos h]
        exact statusFilter_withPriorityLabel i p
      · simp only [if_neg h]
  · rw [if_neg hany]

theorem withPriorityLabel_nodup {i : Issue} (p : String) (h : i.labels.Nodup) :
    (withPriorityLabel i p).labels.Nodup :=
  addLabel_nodup _ (List.Nodup.filter _ h)

theorem set_issue_status_of_any (st : Store) (n : Nat) (s : String)
    (hany : st.any (fun i => i.number == n) = true) :
    set_issue_status st n s
      = ((st.map (fun i => if i.number == n then withStatusAdded i s else i)).map
          (fun i => if i.number == n then withOldStatusesRemoved i s else i), true) := by
  unfold set_issue_status
  rw [if_pos hany]

theorem set_issue_tree_priority_true {st st1 : Store} {n : Nat} {p : String}
    (h : set_issue_tree_priority st n p = (st1, true)) :
    st.any (fun i => i.number == n) = true
    ∧ st1 = st.map (fun i => if i.number == n then withPriorityLabel i p else i) := by
  unfold set_issue_tree_priority at h
  split at h
  · next hany =>
    injection h with h1 h2
    exact ⟨hany, h1.symm⟩
  · next hany =>
    injection h with h1 h2
    cases h2

/-- After `set_issue_status` the issue carries exactly the one new
`status-` label. -/
theorem statusFilter_after_set_status (i : Issue) (s : String)
    (hnd : i.labels.Nodup) :
    (withOldStatusesRemoved (withStatusAdded i s) s).labels.filter
        (fun l => sStartsWith l "status-") = ["status-" ++ s] := by
  unfold withOldStatusesRemoved withStatusAdded
  rw [List.filter_filter]
  have hnd1 : (addLabel i.labels ("status-" ++ s)).Nodup := addLabel_nodup _ hnd
  have hmem1 : ("status-" ++ s) ∈ addLabel i.labels ("status-" ++ s) := addLabel_mem _ _
  have hcongr : ∀ x ∈ addLabel i.labels ("status-" ++ s),
      (sStartsWith x "status-" && !(sStartsWith x "status-" && x != ("status-" ++ s)))
        = (x == ("status-" ++ s)) := by
    intro x hx
    cases hbeq : (x == ("status-" ++ s)) with
    | true =>
      have hxv : x = "status-" ++ s := eq_of_beq hbeq
      subst hxv
      simp [status_label_starts]
    | false =>
      cases hs : sStartsWith x "status-" with
      | false => simp [hs]
      | true =>
        have hne : x ≠ "status-" ++ s := ne_of_beq_false hbeq
        simp [hs, hbeq, hne]
  rw [List.filter_congr hcongr]
  exact filter_beq_of_nodup hnd1 hmem1

theorem statusLabels_set_issue_status (st : Store) (n : Nat) (s : String)
    (hany : st.any (fun i => i.number == n) = true)
    (hwf : ∀ i ∈ st, i.labels.Nodup) :
    statusLabels ((set_issue_status st n s).1) n = ["status-" ++ s] := by
  rw [set_issue_status_of_any st n s hany]
  unfold statusLabels
  rw [find?_number_map _ _ (fun i => by
      by_cases h : (i.number == n) = true <;> simp [h, withOldStatusesRemoved_number]) n]
  rw [find?_number_map _ _ (fun i => by
      by_cases h : (i.number == n) = true <;> simp [h, withStatusAdded_number]) n]
  have hsome : (st.find? (fun i => i.number == n)).isSome = true := by
    rw [List.find?_isSome]
    exact List.any_eq_true.mp hany
  obtain ⟨i0, hi0⟩ := Option.isSome_iff_exists.mp hsome
  rw [hi0]
  have hnum := List.find?_some hi0
  simp only [Option.map_some']
  rw [if_pos hnum, if_pos (show ((withStatusAdded i0 s).number == n) = true from hnum)]
  exact statusFilter_after_set_status i0 s (hwf i0 (List.mem_of_find?_eq_some hi0))

/-- When the parent key is held, the inheritance call rewrites the issue's
status labels to exactly the parent's current status. -/
theorem inheritance_writes_status (st st1 : Store) (n q : Nat) (p pp : String)
    (hwf : ∀ i ∈ st, i.labels.Nodup)
    (hset : set_issue_tree_priority st n p = (st1, true))
    (hpar : get_parent_priority p = some pp)
    (hfind : find_issue_by_priority st1 pp = some q) :
    statusLabels ((set_issue_tree_priority_with_inheritance st n p).1) n
      = ["status-" ++ get_issue_status st1 q] := by
  simp only [set_issue_tree_priority_with_inheritance, hset, hpar, hfind]
  obtain ⟨hany, hst1⟩ := set_issue_tree_priority_true hset
  have hany1 : st1.any (fun i => i.number == n) = true := by
    rw [hst1, any_number_map _ _ (fun i => by
      by_cases h : (i.number == n) = true <;> simp [h, withPriorityLabel_number]) n]
    exact hany
  have hwf1 : ∀ i ∈ st1, i.labels.Nodup := by
    rw [hst1]
    intro i hi
    obtain ⟨i0, hi0, rfl⟩ := List.mem_map.mp hi
    by_cases h : (i0.number == n) = true
    · simp only [if_pos h]
      exact withPriorityLabel_nodup p (hwf i0 hi0)
    · simp only [if_neg h]
      exact hwf i0 hi0
  exact statusLabels_set_issue_status st1 n _ hany1 hwf1

/-! ## Phase-loop lemmas -/

theorem applyCmds_nil (st : Store) : applyCmds [] st = st := rfl

theorem run_phases_nil (rc : List GhCmd → Int) (st : Store) :
    run_phases rc [] st = (true, st) := rfl

theorem run_phases_cons_fail (rc : List GhCmd → Int) (c : List GhCmd)
    (rest : List (List GhCmd)) (st : Store) (hc : c ≠ []) (hrc : rc c ≠ 0) :
    run_phases rc (c :: rest) st = (false, applyCmds c st) := by
  simp [run_phases, hc, hrc]

theorem run_phases_cons_pass (rc : List GhCmd → Int) (c : List GhCmd)
    (rest : List (List GhCmd)) (st : Store) (h : c ≠ [] → rc c = 0) :
    run_phases rc (c :: rest) st = run_phases rc rest (applyCmds c st) := by
  by_cases hc : c = []
  · subst hc
    simp [run_phases, applyCmds_nil]
  · simp [run_phases, hc, h hc]

/-! ## Slot-map sync: dictionary lemmas -/

theorem dictGet_cons_ne {kv : Nat × String} {m : List (Nat × String)} {k : Nat}
    (h : (kv.1 == k) = false) : dictGet (kv :: m) k = dictGet m k := by
  simp [dictGet, List.find?_cons, h]

theorem dictSet_cons_ne {kv : Nat × String} {rest : List (Nat × String)} {k : Nat}
    {v : String} (h : (kv.1 == k) = false) :
    dictSet (kv :: rest) k v = kv :: dictSet rest k v := by
  unfold dictSet
  rw [List.any_cons, h, Bool.false_or]
  cases hany : rest.any (fun kv => kv.1 == k) with
  | true =>
    rw [if_pos rfl, if_pos rfl, List.map_cons,
      if_neg (by rw [h]; exact Bool.false_ne_true)]
  | false =>
    rw [if_neg (by exact Bool.false_ne_true), if_neg (by exact Bool.false_ne_true),
      List.cons_append]

theorem dictGet_dictSet_self (m : List (Nat × String)) (k : Nat) (v : String) :
    dictGet (dictSet m k v) k = some v := by
  induction m with
  | nil => simp [dictSet, dictGet, List.find?]
  | cons kv rest ih =>
    cases h : (kv.1 == k) with
    | true =>
      have hany : (kv :: rest).any (fun kv => kv.1 == k) = true := by
        rw [List.any_cons, h, Bool.true_or]
      unfold dictSet
      rw [if_pos hany, List.map_cons, if_pos h]
      simp [dictGet, List.find?_cons]
    | false =>
      rw [dictSet_cons_ne h, dictGet_cons_ne h]
      exact ih

theorem dictGet_map_update_ne {m : List (Nat × String)} {k k' : Nat} {v : String}
    (h : k' ≠ k) :
    dictGet (m.map (fun kv => if kv.1 == k then (k, v) else kv)) k' = dictGet m k' := by
  induction m with
  | nil => rfl
  | cons kv rest ih =>
    cases hk : (kv.1 == k) with
    | true =>
      have h1 : ((k, v).1 == k') = false := by
        simp only [beq_eq_false_iff_ne]
        exact fun heq => h heq.symm
      have h2 : (kv.1 == k') = false := by
        simp only [beq_eq_false_iff_ne]
        intro heq
        exact h (heq ▸ eq_of_beq hk)
      rw [List.map_cons, if_pos hk, dictGet_cons_ne h1, dictGet_cons_ne h2]
      exact ih
    | false =>
      rw [List.map_cons, if_neg (by rw [hk]; exact Bool.false_ne_true)]
      cases hk' : (kv.1 == k') with
      | true => simp [dictGet, List.find?_cons, hk']
      | false =>
        rw [dictGet_cons_ne hk', dictGet_cons_ne hk']
        exact ih

theorem dictGet_append_single {m : List (Nat × String)} {k k' : Nat} {v : String}
    (h : k' ≠ k) : dictGet (m ++ [(k, v)]) k' = dictGet m k' := by
  induction m with
  | nil =>
    have hkk : (k == k') = false := by
      simp only [beq_eq_false_iff_ne]
      exact fun heq => h heq.symm
    simp [dictGet, List.find?_cons, hkk, List.find?]
  | cons kv rest ih =>
    cases hk' : (kv.1 == k') with
    | true => simp [dictGet, List.find?_cons, hk']
    | false =>
      rw [List.cons_append, dictGet_cons_ne hk', dictGet_cons_ne hk']
      exact ih

theorem dictGet_dictSet_ne (m : List (Nat × String)) {k k' : Nat} (v : String)
    (h : k' ≠ k) : dictGet (dictSet m k v) k' = dictGet m k' := by
  unfold dictSet
  cases hany : m.any (fun kv => kv.1 == k) with
  | true =>
    rw [if_pos rfl]
    exact dictGet_map_update_ne h
  | false =>
    rw [if_neg Bool.false_ne_true]
    exact dictGet_append_single h

theorem mem_lane_parent_children {sis : List SlotIssue} {key p : String}
    (h : p ∈ lane_parent_children sis key) :
    ∃ e ∈ sis, e.parentSlot ≠ none ∧ e.lane_position = p := by
  unfold lane_parent_children at h
  obtain ⟨e, he, hep⟩ := List.mem_map.mp h
  have hef := List.mem_filter.mp he
  refine ⟨e, hef.1, ?_, hep⟩
  cases hps : e.parentSlot with
  | none =>
    have := hef.2
    rw [hps] at this
    cases this
  | some nn => simp

/-! ## Slot-map sync: traversal invariants -/

theorem children_fold_counter (sis : List SlotIssue) (fuel : Nat) (pr : String)
    (hc : ∀ issue pp st, (assign_priority sis fuel issue (some pp) st).global_counter
        = st.global_counter) :
    ∀ (ps : List String) (acc : SyncState),
      (ps.foldl (fun acc child_pos =>
        match sis.find? (fun i => i.lane_position == child_pos) with
        | some child => assign_priority sis fuel child (some pr) acc
        | none => acc) acc).global_counter = acc.global_counter := by
  intro ps
  induction ps with
  | nil => intro acc; rfl
  | cons p rest ih =>
    intro acc
    rw [List.foldl_cons, ih]
    cases hf : sis.find? (fun i => i.lane_position == p) with
    | none => rfl
    | some c => exact hc c pr acc

theorem assign_counter_child (sis : List SlotIssue) :
    ∀ (fuel : Nat) (issue : SlotIssue) (pp : String) (st : SyncState),
      (assign_priority sis fuel issue (some pp) st).global_counter
        = st.global_counter := by
  intro fuel
  induction fuel with
  | zero => intro issue pp st; rfl
  | succ fuel ih =>
    intro issue pp st
    simp only [assign_priority]
    exact children_fold_counter sis fuel _ (fun i p s => ih i p s) _ _

theorem assign_counter_root (sis : List SlotIssue) (fuel : Nat) (issue : SlotIssue)
    (st : SyncState) :
    (assign_priority sis (fuel + 1) issue none st).global_counter
      = st.global_counter + 1 := by
  simp only [assign_priority]
  exact children_fold_counter sis fuel _
    (fun i p s => assign_counter_child sis fuel i p s) _ _

theorem children_fold_dictGet (sis : List SlotIssue) (fuel : Nat) (pr : String) (k : Nat)
    (hc : ∀ (issue : SlotIssue) (pp : String) (st : SyncState), k ≠ issue.issueId →
        (∀ e ∈ sis, e.parentSlot ≠ none → e.issueId ≠ k) →
        dictGet (assign_priority sis fuel issue (some pp) st).priority_map k
          = dictGet st.priority_map k)
    (hpos : (sis.map (fun e => e.lane_position)).Nodup)
    (hke : ∀ e ∈ sis, e.parentSlot ≠ none → e.issueId ≠ k) :
    ∀ (ps : List String),
      (∀ p ∈ ps, ∃ e ∈ sis, e.parentSlot ≠ none ∧ e.lane_position = p) →
      ∀ (acc : SyncState),
      dictGet ((ps.foldl (fun acc child_pos =>
        match sis.find? (fun i => i.lane_position == child_pos) with
        | some child => assign_priority sis fuel child (some pr) acc
        | none => acc) acc)).priority_map k = dictGet acc.priority_map k := by
  intro ps
  induction ps with
  | nil => intro _ acc; rfl
  | cons p rest ih =>
    intro hps acc
    rw [List.foldl_cons, ih (fun q hq => hps q (List.mem_cons_of_mem p hq))]
    cases hf : sis.find? (fun i => i.lane_position == p) with
    | none => rfl
    | some c =>
      obtain ⟨e, he, hesome, hepos⟩ := hps p (List.mem_cons_self p rest)
      have hc_mem : c ∈ sis := List.mem_of_find?_eq_some hf
      have hbeq := List.find?_some hf
      have hc_pos : c.lane_position = p := eq_of_beq hbeq
      have hce : c = e :=
        List.inj_on_of_nodup_map hpos hc_mem he (by rw [hc_pos, hepos])
      have hck : c.issueId ≠ k := by
        rw [hce]
        exact hke e he hesome
      exact hc c pr acc (Ne.symm hck) hke

theorem assign_dictGet_other (sis : List SlotIssue)
    (hpos : (sis.map (fun e => e.lane_position)).Nodup) :
    ∀ (fuel : Nat) (issue : SlotIssue) (pp : Option String) (st : SyncState) (k : Nat),
      k ≠ issue.issueId →
      (∀ e ∈ sis, e.parentSlot ≠ none → e.issueId ≠ k) →
      dictGet (assign_priority sis fuel issue pp st).priority_map k
        = dictGet st.priority_map k := by
  intro fuel
  induction fuel with
  | zero => intro issue pp st k h1 h2; rfl
  | succ fuel ih =>
    intro issue pp st k h1 h2
    cases pp with
    | none =>
      simp only [assign_priority]
      rw [children_fold_dictGet sis fuel _ k
        (fun i p s hki hall => ih i (some p) s k hki hall) hpos h2 _
        (fun q hq => mem_lane_parent_children hq)]
      exact dictGet_dictSet_ne _ _ h1
    | some pp =>
      simp only [assign_priority]
      rw [children_fold_dictGet sis fuel _ k
        (fun i p s hki hall => ih i (some p) s k hki hall) hpos h2 _
        (fun q hq => mem_lane_parent_children hq)]
      exact dictGet_dictSet_ne _ _ h1

theorem assign_root_writes_self (sis : List SlotIssue)
    (hpos : (sis.map (fun e => e.lane_position)).Nodup)
    (fuel : Nat) (issue : SlotIssue) (st : SyncState)
    (hids : ∀ e ∈ sis, e.parentSlot ≠ none → e.issueId ≠ issue.issueId) :
    dictGet (assign_priority sis (fuel + 1) issue none st).priority_map issue.issueId
      = some (toString st.global_counter) := by
  simp only [assign_priority]
  rw [children_fold_dictGet sis fuel _ issue.issueId
    (fun i p s hki hall =>
      assign_dictGet_other sis hpos fuel i (some p) s issue.issueId hki hall)
    hpos hids _ (fun q hq => mem_lane_parent_children hq)]
  exact dictGet_dictSet_self _ _ _

theorem process_roots_dictGet_other (sis : List SlotIssue) (fuel : Nat)
    (hpos : (sis.map (fun e => e.lane_position)).Nodup) :
    ∀ (rs : List SlotIssue) (st : SyncState) (k : Nat),
      (∀ e ∈ rs, e.issueId ≠ k) →
      (∀ e ∈ sis, e.parentSlot ≠ none → e.issueId ≠ k) →
      dictGet (process_roots sis fuel rs st).priority_map k
        = dictGet st.priority_map k := by
  intro rs
  induction rs with
  | nil => intro st k _ _; rfl
  | cons r rs ih =>
    intro st k h1 h2
    have hcons : process_roots sis fuel (r :: rs) st
        = process_roots sis fuel rs (assign_priority sis fuel r none st) := rfl
    rw [hcons, ih _ k (fun e he => h1 e (List.mem_cons_of_mem r he)) h2]
    exact assign_dictGet_other sis hpos fuel r none st k
      (Ne.symm (h1 r (List.mem_cons_self r rs))) h2

theorem process_roots_get (sis : List SlotIssue)
    (hpos : (sis.map (fun e => e.lane_position)).Nodup)
    (hids : (sis.map (fun e => e.issueId)).Nodup) (fuel : Nat) :
    ∀ (rs : List SlotIssue) (st : SyncState),
      (∀ e ∈ rs, e ∈ sis ∧ e.parentSlot = none) →
      ((rs.map (fun e => e.issueId)).Nodup) →
      ∀ j (hj : j < rs.length),
        dictGet (process_roots sis (fuel + 1) rs st).priority_map
            ((rs.get ⟨j, hj⟩).issueId)
          = some (toString (st.global_counter + j)) := by
  intro rs
  induction rs with
  | nil =>
    intro st _ _ j hj
    exact absurd hj (by simp)
  | cons r rs ih =>
    intro st hmem hnd j hj
    have hcons : process_roots sis (fuel + 1) (r :: rs) st
        = process_roots sis (fuel + 1) rs (assign_priority sis (fuel + 1) r none st) := rfl
    rw [hcons]
    have hother : ∀ e ∈ sis, e.parentSlot ≠ none → e.issueId ≠ r.issueId := by
      intro e he hsome heq
      have hre := (hmem r (List.mem_cons_self r rs)).1
      have := List.inj_on_of_nodup_map hids he hre heq
      rw [this] at hsome
      exact hsome (hmem r (List.mem_cons_self r rs)).2
    cases j with
    | zero =>
      show dictGet _ r.issueId = some (toString (st.global_counter + 0))
      have htail : ∀ e ∈ rs, e.issueId ≠ r.issueId := by
        intro e he heq
        have hmm : e.issueId ∈ rs.map (fun e => e.issueId) :=
          List.mem_map_of_mem (fun e => e.issueId) he
        rw [heq] at hmm
        exact (List.nodup_cons.mp hnd).1 hmm
      rw [process_roots_dictGet_other sis (fuel + 1) hpos rs _ r.issueId htail hother,
        assign_root_writes_self sis hpos fuel r st hother, Nat.add_zero]
    | succ j =>
      show dictGet _ ((rs.get ⟨j, Nat.lt_of_succ_lt_succ hj⟩).issueId)
        = some (toString (st.global_counter + (j + 1)))
      rw [ih _ (fun e he => hmem e (List.mem_cons_of_mem r he))
        (List.nodup_cons.mp hnd).2 j (Nat.lt_of_succ_lt_succ hj),
        assign_counter_root sis fuel r st]
      have harith : st.global_counter + 1 + j = st.global_counter + (j + 1) := by omega
      rw [harith]

theorem process_roots_append (sis : List SlotIssue) (fuel : Nat)
    (a b : List SlotIssue) (st : SyncState) :
    process_roots sis fuel (a ++ b) st
      = process_roots sis fuel b (process_roots sis fuel a st) :=
  List.foldl_append _ _ a b

theorem foldl_lanes_process_roots (sis : List SlotIssue) (fuel : Nat)
    (g : String → List SlotIssue) :
    ∀ (lanes : List String) (st : SyncState),
      lanes.foldl (fun st lane => process_roots sis fuel (g lane) st) st
        = process_roots sis fuel (lanes.flatMap g) st := by
  intro lanes
  induction lanes with
  | nil => intro st; rfl
  | cons lane rest ih =>
    intro st
    rw [List.foldl_cons, ih, List.flatMap_cons, process_roots_append]

theorem mem_root_lane {sm : SlotMap} {lane : String} {e : SlotIssue}
    (he : e ∈ sortBySlotIndex ((flatten_slot_issues sm).filter
      (fun i => i.lane == lane && i.parentSlot == none))) :
    e ∈ flatten_slot_issues sm ∧ e.lane = lane ∧ e.parentSlot = none := by
  have hmem := (sortBy_perm (fun a b : SlotIssue => decide (a.slotIndex < b.slotIndex))
    ((flatten_slot_issues sm).filter
      (fun i => i.lane == lane && i.parentSlot == none))).mem_iff.mp he
  have hf := List.mem_filter.mp hmem
  have hb := hf.2
  simp only [Bool.and_eq_true, beq_iff_eq] at hb
  exact ⟨hf.1, hb.1, hb.2⟩

theorem root_order_mem {sm : SlotMap} {e : SlotIssue} (he : e ∈ root_order sm) :
    e ∈ flatten_slot_issues sm ∧ e.parentSlot = none := by
  unfold root_order at he
  obtain ⟨lane, _, hel⟩ := List.mem_flatMap.mp he
  exact ⟨(mem_root_lane hel).1, (mem_root_lane hel).2.2⟩

theorem root_order_ids_nodup (sm : SlotMap)
    (hids : ((flatten_slot_issues sm).map (fun e => e.issueId)).Nodup) :
    ((root_order sm).map (fun e => e.issueId)).Nodup := by
  unfold root_order
  rw [List.map_flatMap, List.nodup_flatMap]
  constructor
  · intro lane _
    have hperm :=
      (sortBy_perm (fun a b : SlotIssue => decide (a.slotIndex < b.slotIndex))
        ((flatten_slot_issues sm).filter
          (fun i => i.lane == lane && i.parentSlot == none))).map
        (fun e => e.issueId)
    have hsub : (List.map (fun e : SlotIssue => e.issueId)
        ((flatten_slot_issues sm).filter
          (fun i => i.lane == lane && i.parentSlot == none))).Sublist
        (List.map (fun e => e.issueId) (flatten_slot_issues sm)) :=
      List.Sublist.map (fun e : SlotIssue => e.issueId)
        (List.filter_sublist (flatten_slot_issues sm))
    exact hperm.nodup_iff.mpr (List.Nodup.sublist hsub hids)
  · have hlo : List.Pairwise (fun a b => a ≠ b) lane_order := by decide
    refine hlo.imp ?_
    intro a b hne x hx1 hx2
    obtain ⟨e1, he1, hx1e⟩ := List.mem_map.mp hx1
    obtain ⟨e2, he2, hx2e⟩ := List.mem_map.mp hx2
    have h1 := mem_root_lane he1
    have h2 := mem_root_lane he2
    have he12 : e1 = e2 :=
      List.inj_on_of_nodup_map hids h1.1 h2.1 (hx1e.trans hx2e.symm)
    exact hne ((h1.2.1.symm.trans (congrArg SlotIssue.lane he12)).trans h2.2.1)

theorem sync_priority_map_eq (sm : SlotMap) :
    sync_priority_map sm
      = (process_roots (flatten_slot_issues sm) ((flatten_slot_issues sm).length + 1)
          (root_order sm)
          { priority_map := [], global_counter := 1 }).priority_map := by
  simp only [sync_priority_map, root_order]
  rw [foldl_lanes_process_roots]

theorem sync_priority_map_roots (sm : SlotMap)
    (hids : ((flatten_slot_issues sm).map (fun e => e.issueId)).Nodup)
    (hpos : ((flatten_slot_issues sm).map (fun e => e.lane_position)).Nodup)
    (j : Nat) (hj : j < (root_order sm).length) :
    dictGet (sync_priority_map sm) (((root_order sm).get ⟨j, hj⟩).issueId)
      = some (toString (j + 1)) := by
  rw [sync_priority_map_eq]
  have h := process_roots_get (flatten_slot_issues sm) hpos hids
    ((flatten_slot_issues sm).length) (root_order sm)
    { priority_map := [], global_counter := 1 }
    (fun e he => root_order_mem he) (root_order_ids_nodup sm hids) j hj
  rw [h]
  show some (toString (1 + j)) = some (toString (j + 1))
  rw [Nat.add_comm 1 j]

/-! ### end of helper theorems -/

/-! ## Claim theorems -/

/-- C3: for all priority keys, the order used by
`sort_issues_by_tree_priority` compares components pairwise by integer
value, and when one key is a strict proper prefix of the other the shorter
(ancestor) key sorts first — `pyListLt` coincides with the lexicographic
order `List.Lex (· < ·)`; in particular `[1]` sorts before `[1,1]`, `[1,1]`
before `[1,2]`, `[1,9]` before `[2]`, and `[1,10]` after `[1,2]` (numeric,
not string-lexicographic, comparison); the sort's output is pairwise
nondescending in this order. -/
theorem sort_order_is_numeric_lex_prefix_first :
    (∀ a b : List Int, pyListLt a b = true ↔ List.Lex (· < ·) a b)
    ∧ (pyListLt [1] [1, 1] = true ∧ pyListLt [1, 1] [1, 2] = true
       ∧ pyListLt [1, 9] [2] = true ∧ pyListLt [1, 2] [1, 10] = true
       ∧ pyListLt [1, 10] [1, 2] = false)
    ∧ (∀ issues : List Issue, (sort_issues_by_tree_priority issues).Pairwise
        (fun x y => ¬ pyListLt (get_issue_priority y) (get_issue_priority x) = true)) := by
  refine ⟨pyListLt_iff_lex, by decide, ?_⟩
  intro issues
  unfold sort_issues_by_tree_priority
  exact sortBy_pairwise (fun a b => pyListLt (get_issue_priority a) (get_issue_priority b))
    (fun a b c hba hcb => pyListLt_not_lt_trans hba hcb)
    (fun a b h => by simp [pyListLt_asymm h])
    issues

/-- C8: `parse_tree_priority` is total and never raises: `high`/`medium`/
`low` map to `[1]`/`[2]`/`[3]`; a dot-separated string of integers maps to
the list of those integers; every other string maps to the sentinel `[999]`,
which sorts after every key whose leading component is below 999 (the keys
appearing in practice). -/
theorem parse_tree_priority_total_spec :
    (parse_tree_priority "high" = [1] ∧ parse_tree_priority "medium" = [2]
       ∧ parse_tree_priority "low" = [3])
    ∧ (∀ (s : String) (l : List Int), s ≠ "high" → s ≠ "medium" → s ≠ "low" →
        intParts (splitOnDot s.toList) = some l → parse_tree_priority s = l)
    ∧ (∀ s : String, s ≠ "high" → s ≠ "medium" → s ≠ "low" →
        intParts (splitOnDot s.toList) = none → parse_tree_priority s = [999])
    ∧ (parse_tree_priority "1.2.3" = [1, 2, 3] ∧ parse_tree_priority "1.10" = [1, 10]
       ∧ parse_tree_priority "0.5" = [0, 5] ∧ parse_tree_priority "" = [999]
       ∧ parse_tree_priority "1..2" = [999] ∧ parse_tree_priority "garbage" = [999])
    ∧ (∀ (c : Int) (cs : List Int), c < 999 → pyListLt (c :: cs) [999] = true) := by
  refine ⟨by decide, ?_, ?_, by decide, ?_⟩
  · intro s l h1 h2 h3 h4
    have h4' : intParts (splitOnDot s.data) = some l := h4
    simp [parse_tree_priority, h1, h2, h3, h4']
  · intro s h1 h2 h3 h4
    have h4' : intParts (splitOnDot s.data) = none := h4
    simp [parse_tree_priority, h1, h2, h3, h4']
  · intro c cs h
    simp [pyListLt, h]

/-- C2 (amended): `calculate_insertion_priority` implements the allocator
rules in priority order — empty list → `"1"`; `position ≤ 0` → first root
minus one when that root exceeds 1, else `"0.5"`; `position ≥ length` →
last root plus one; interior with differing roots → before's root plus
one; equal depths → before with last component incremented; differing
depths → the composite `before.root . x . 5`, where `x` is before's second
component when before has one and `1` otherwise — and no branch raises an
exception for any input (the result is always `some`). -/
theorem calculate_insertion_priority_branches (issues : List PrioritizedIssue)
    (insert_position : Int) :
    calculate_insertion_priority issues insert_position
      = some (claim_allocator issues insert_position) :=
  calc_insertion_eq_claim issues insert_position

/-- C2 counterexample: with `before` holding key `[1]` and `after` holding
`[1,1]` (equal roots, differing depths) the source returns `"1.1.5"`; its
middle component `1` is the source's `else 1` fallback, for `before` has no
second component `before[1]` (`[1].get? 1 = none`), so the claim's literal
composite `before.root . before[1] . 5` denotes no value at this input. -/
theorem calculate_insertion_priority_depth_fallback_cex :
    calculate_insertion_priority [⟨1, "", "1", [1]⟩, ⟨2, "", "1.1", [1, 1]⟩] 1
      = some "1.1.5"
    ∧ parse_tree_priority "1" = [1] ∧ parse_tree_priority "1.1" = [1, 1]
    ∧ ¬ ∃ second : Int, (parse_tree_priority "1").get? 1 = some second := by
  refine ⟨by decide, by decide, by decide, ?_⟩
  rintro ⟨second, hs⟩
  rw [show parse_tree_priority "1" = [1] by decide] at hs
  simp at hs

/-- C9: for items holding keys `[1]`, `[2]`, `[3]` and insertion position 1
(between `[1]` and `[2]`), the allocator returns `"2"` — a key already held
by another item — and a move that inserts there succeeds, leaving two items
holding `priority-2` and every other item unchanged: the duplicate is
neither detected, nor rejected, nor repaired. -/
theorem insertion_collision_not_detected :
    calculate_insertion_priority
      [⟨10, "", "1", [1]⟩, ⟨20, "", "2", [2]⟩, ⟨30, "", "3", [3]⟩] 1 = some "2"
    ∧ (move_issue_above [⟨10, "", ["priority-1"]⟩, ⟨20, "", ["priority-2"]⟩,
          ⟨30, "", ["priority-3"]⟩, ⟨40, "", ["priority-9"]⟩] 40 20).2
        = Except.ok "Moved issue #40 above #20 | List position: 2 | Priority: 2"
    ∧ (move_issue_above [⟨10, "", ["priority-1"]⟩, ⟨20, "", ["priority-2"]⟩,
          ⟨30, "", ["priority-3"]⟩, ⟨40, "", ["priority-9"]⟩] 40 20).1
        = [⟨10, "", ["priority-1"]⟩, ⟨20, "", ["priority-2"]⟩,
           ⟨30, "", ["priority-3"]⟩, ⟨40, "", ["priority-2"]⟩] :=
  ⟨by decide, by rfl, by decide⟩

/-- C4: every successful `move_issue_above`, `move_issue_below`, or
`move_issue_between` writes a priority tag for exactly one issue, the
moving one: the store keeps its length, every issue whose number differs
from the moving id is byte-for-byte unchanged (its priority and status
tags included), and the moving issue's labels change only by replacing its
`priority-` labels with the single new one. -/
theorem moves_write_only_the_moving_issue (st : Store) (a b c : Nat)
    (st' : Store) (msg : String)
    (h : move_issue_above st a b = (st', Except.ok msg)
      ∨ move_issue_below st a b = (st', Except.ok msg)
      ∨ move_issue_between st a b c = (st', Except.ok msg)) :
    ∃ p, st'.length = st.length
      ∧ ∀ j (hj : j < st.length) (hj2 : j < st'.length),
          ((st.get ⟨j, hj⟩).number ≠ a → st'.get ⟨j, hj2⟩ = st.get ⟨j, hj⟩)
          ∧ ((st.get ⟨j, hj⟩).number = a →
              st'.get ⟨j, hj2⟩ = withPriorityLabel (st.get ⟨j, hj⟩) p) := by
  obtain ⟨np, hst⟩ := move_success_shape h
  subst hst
  obtain ⟨hlen, hget⟩ := set_issue_tree_priority_pointwise st a np
  refine ⟨np, hlen, ?_⟩
  intro j hj hj2
  constructor
  · intro hne
    rw [hget j hj hj2, if_neg hne]
  · intro heq
    rw [hget j hj hj2, if_pos heq]

/-- Witness for C4: a concrete successful move touches only issue 40. -/
theorem moves_write_only_the_moving_issue_witness :
    ∃ p, ([⟨10, "", ["priority-1"]⟩, ⟨20, "", ["priority-2", "status-build"]⟩,
            ⟨40, "", ["priority-2"]⟩] : Store).length
        = ([⟨10, "", ["priority-1"]⟩, ⟨20, "", ["priority-2", "status-build"]⟩,
            ⟨40, "", ["priority-9"]⟩] : Store).length
      ∧ ∀ j (hj : j < ([⟨10, "", ["priority-1"]⟩,
            ⟨20, "", ["priority-2", "status-build"]⟩,
            ⟨40, "", ["priority-9"]⟩] : Store).length)
          (hj2 : j < ([⟨10, "", ["priority-1"]⟩,
            ⟨20, "", ["priority-2", "status-build"]⟩,
            ⟨40, "", ["priority-2"]⟩] : Store).length),
          ((([⟨10, "", ["priority-1"]⟩, ⟨20, "", ["priority-2", "status-build"]⟩,
              ⟨40, "", ["priority-9"]⟩] : Store).get ⟨j, hj⟩).number ≠ 40 →
            ([⟨10, "", ["priority-1"]⟩, ⟨20, "", ["priority-2", "status-build"]⟩,
              ⟨40, "", ["priority-2"]⟩] : Store).get ⟨j, hj2⟩
              = ([⟨10, "", ["priority-1"]⟩, ⟨20, "", ["priority-2", "status-build"]⟩,
                  ⟨40, "", ["priority-9"]⟩] : Store).get ⟨j, hj⟩)
          ∧ ((([⟨10, "", ["priority-1"]⟩, ⟨20, "", ["priority-2", "status-build"]⟩,
              ⟨40, "", ["priority-9"]⟩] : Store).get ⟨j, hj⟩).number = 40 →
            ([⟨10, "", ["priority-1"]⟩, ⟨20, "", ["priority-2", "status-build"]⟩,
              ⟨40, "", ["priority-2"]⟩] : Store).get ⟨j, hj2⟩
              = withPriorityLabel (([⟨10, "", ["priority-1"]⟩,
                  ⟨20, "", ["priority-2", "status-build"]⟩,
                  ⟨40, "", ["priority-9"]⟩] : Store).get ⟨j, hj⟩) p) :=
  moves_write_only_the_moving_issue
    [⟨10, "", ["priority-1"]⟩, ⟨20, "", ["priority-2", "status-build"]⟩,
      ⟨40, "", ["priority-9"]⟩] 40 20 0
    [⟨10, "", ["priority-1"]⟩, ⟨20, "", ["priority-2", "status-build"]⟩,
      ⟨40, "", ["priority-2"]⟩]
    "Moved issue #40 above #20 | List position: 2 | Priority: 2"
    (Or.inl (by rfl))

/-- C5: each move surfaces its error and performs no tag write when the
moving issue is absent from the prioritized list, when the target / above /
below issue is absent from the remaining list, or when (in
`move_issue_between`) the above issue's position is not strictly before the
below issue's position; in every such case the result pairs the unchanged
store with the error. -/
theorem moves_surface_errors_without_writes :
    (∀ (st : Store) (a t u : Nat),
      (∀ i ∈ (get_all_prioritized_issues st).filter (fun i => i.priority ≠ "none"),
          i.number ≠ a) →
      move_issue_above st a t
          = (st, Except.error s!"Issue #{a} not found or has no priority")
        ∧ move_issue_below st a t
          = (st, Except.error s!"Issue #{a} not found or has no priority")
        ∧ move_issue_between st a t u
          = (st, Except.error s!"Issue #{a} not found or has no priority"))
    ∧ (∀ (st : Store) (a t : Nat) (mv : PrioritizedIssue) (rem : List PrioritizedIssue),
        popFirst (fun i => i.number == a)
            ((get_all_prioritized_issues st).filter (fun i => i.priority ≠ "none"))
          = some (mv, rem) →
        (∀ i ∈ rem, i.number ≠ t) →
        move_issue_above st a t = (st, Except.error s!"Target issue #{t} not found")
          ∧ move_issue_below st a t = (st, Except.error s!"Target issue #{t} not found"))
    ∧ (∀ (st : Store) (a b c : Nat) (mv : PrioritizedIssue) (rem : List PrioritizedIssue),
        popFirst (fun i => i.number == a)
            ((get_all_prioritized_issues st).filter (fun i => i.priority ≠ "none"))
          = some (mv, rem) →
        (∀ i ∈ rem, i.number ≠ b) →
        move_issue_between st a b c = (st, Except.error s!"Above issue #{b} not found"))
    ∧ (∀ (st : Store) (a b c : Nat) (mv : PrioritizedIssue) (rem : List PrioritizedIssue),
        popFirst (fun i => i.number == a)
            ((get_all_prioritized_issues st).filter (fun i => i.priority ≠ "none"))
          = some (mv, rem) →
        (∃ i ∈ rem, i.number = b) →
        (∀ i ∈ rem, i.number ≠ c) →
        move_issue_between st a b c = (st, Except.error s!"Below issue #{c} not found"))
    ∧ (∀ (st : Store) (a b c : Nat) (mv : PrioritizedIssue)
        (rem : List PrioritizedIssue) (i j : Nat),
        popFirst (fun i => i.number == a)
            ((get_all_prioritized_issues st).filter (fun i => i.priority ≠ "none"))
          = some (mv, rem) →
        (rem.enum.foldl (fun ab p => if p.2.number == b then (some p.1, ab.2)
            else if p.2.number == c then (ab.1, some p.1) else ab)
          ((none : Option Nat), (none : Option Nat))) = (some i, some j) →
        i ≥ j →
        move_issue_between st a b c
          = (st, Except.error "Above issue must have higher priority than below issue")) := by
  refine ⟨?_, ?_, ?_, ?_, ?_⟩
  · intro st a t u hne
    have hpop : popFirst (fun i => i.number == a)
        ((get_all_prioritized_issues st).filter (fun i => i.priority ≠ "none")) = none :=
      popFirst_eq_none (fun x hx => by simp [hne x hx])
    exact ⟨by simp only [move_issue_above, hpop], by simp only [move_issue_below, hpop],
      by simp only [move_issue_between, hpop]⟩
  · intro st a t mv rem hpop hne
    have hfind : rem.findIdx? (fun i => i.number == t) = none :=
      findIdx?_eq_none (fun x hx => by simp [hne x hx])
    exact ⟨by simp only [move_issue_above, hpop, hfind],
      by simp only [move_issue_below, hpop, hfind]⟩
  · intro st a b c mv rem hpop hne
    have h1 : ((rem.enum.foldl (fun ab p => if p.2.number == b then (some p.1, ab.2)
        else if p.2.number == c then (ab.1, some p.1) else ab)
        ((none : Option Nat), (none : Option Nat)))).1 = none :=
      between_fold_fst_none b c rem.enum _
        (fun x hx => hne x.2 (snd_mem_of_mem_enum hx))
    simp only [move_issue_between, hpop, h1]
  · intro st a b c mv rem hpop hex hne
    have h2 : ((rem.enum.foldl (fun ab p => if p.2.number == b then (some p.1, ab.2)
        else if p.2.number == c then (ab.1, some p.1) else ab)
        ((none : Option Nat), (none : Option Nat)))).2 = none :=
      between_fold_snd_none b c rem.enum _
        (fun x hx => hne x.2 (snd_mem_of_mem_enum hx))
    have h1s : (((rem.enum.foldl (fun ab p => if p.2.number == b then (some p.1, ab.2)
        else if p.2.number == c then (ab.1, some p.1) else ab)
        ((none : Option Nat), (none : Option Nat)))).1).isSome = true := by
      obtain ⟨x, hx, hxb⟩ := hex
      obtain ⟨idx, hidx⟩ := List.mem_iff_getElem?.mp hx
      exact between_fold_fst_some_of_match b c rem.enum _
        ⟨(idx, x), List.mem_enum_iff_getElem?.mpr hidx, hxb⟩
    obtain ⟨k, hk⟩ := Option.isSome_iff_exists.mp h1s
    simp only [move_issue_between, hpop, hk, h2]
  · intro st a b c mv rem i j hpop hfold hij
    have h1 : ((rem.enum.foldl (fun ab p => if p.2.number == b then (some p.1, ab.2)
        else if p.2.number == c then (ab.1, some p.1) else ab)
        ((none : Option Nat), (none : Option Nat)))).1 = some i := by rw [hfold]
    have h2 : ((rem.enum.foldl (fun ab p => if p.2.number == b then (some p.1, ab.2)
        else if p.2.number == c then (ab.1, some p.1) else ab)
        ((none : Option Nat), (none : Option Nat)))).2 = some j := by rw [hfold]
    simp only [move_issue_between, hpop, h1, h2]
    rw [if_pos hij]

/-- Witness for C5: a concrete missing mover and a concrete inverted
`above`/`below` pair, each leaving the store untouched. -/
theorem moves_surface_errors_without_writes_witness :
    move_issue_above [⟨10, "", ["priority-1"]⟩, ⟨20, "", ["priority-2"]⟩,
        ⟨30, "", ["priority-3"]⟩] 99 10
      = ([⟨10, "", ["priority-1"]⟩, ⟨20, "", ["priority-2"]⟩, ⟨30, "", ["priority-3"]⟩],
         Except.error "Issue #99 not found or has no priority")
    ∧ move_issue_between [⟨10, "", ["priority-1"]⟩, ⟨20, "", ["priority-2"]⟩,
        ⟨30, "", ["priority-3"]⟩] 20 30 10
      = ([⟨10, "", ["priority-1"]⟩, ⟨20, "", ["priority-2"]⟩, ⟨30, "", ["priority-3"]⟩],
         Except.error "Above issue must have higher priority than below issue") :=
  ⟨(moves_surface_errors_without_writes.1
      [⟨10, "", ["priority-1"]⟩, ⟨20, "", ["priority-2"]⟩, ⟨30, "", ["priority-3"]⟩]
      99 10 0 (by decide)).1,
   moves_surface_errors_without_writes.2.2.2.2
      [⟨10, "", ["priority-1"]⟩, ⟨20, "", ["priority-2"]⟩, ⟨30, "", ["priority-3"]⟩]
      20 30 10 ⟨20, "", "2", [2]⟩ [⟨10, "", "1", [1]⟩, ⟨30, "", "3", [3]⟩] 1 0
      (by decide) (by decide) (by decide)⟩

/-- C7: `set_issue_tree_priority_with_inheritance` sets the priority and
then: with a single-component key (no parent) it stops, leaving every
status label as `set_issue_tree_priority` left it (i.e. untouched); when
the parent key is not held by any issue it also stops with statuses
untouched; and when some issue holds the parent key, the parent's current
status is written onto the issue. -/
theorem status_inheritance_spec :
    (∀ (st : Store) (n : Nat) (p : String),
      get_parent_priority p = none →
      set_issue_tree_priority_with_inheritance st n p = set_issue_tree_priority st n p)
    ∧ (∀ (st st1 : Store) (n : Nat) (p pp : String),
        set_issue_tree_priority st n p = (st1, true) →
        get_parent_priority p = some pp →
        find_issue_by_priority st1 pp = none →
        set_issue_tree_priority_with_inheritance st n p = (st1, true))
    ∧ (∀ (st : Store) (n : Nat) (p : String) (m : Nat),
        statusLabels ((set_issue_tree_priority st n p).1) m = statusLabels st m)
    ∧ (∀ (st st1 : Store) (n q : Nat) (p pp : String),
        (∀ i ∈ st, i.labels.Nodup) →
        set_issue_tree_priority st n p = (st1, true) →
        get_parent_priority p = some pp →
        find_issue_by_priority st1 pp = some q →
        statusLabels ((set_issue_tree_priority_with_inheritance st n p).1) n
          = ["status-" ++ get_issue_status st1 q]) := by
  refine ⟨?_, ?_, statusLabels_set_issue_tree_priority, inheritance_writes_status⟩
  · intro st n p hpar
    cases hset : set_issue_tree_priority st n p with
    | mk st1 flag =>
      cases flag
      · simp only [set_issue_tree_priority_with_inheritance, hset]
      · simp only [set_issue_tree_priority_with_inheritance, hset, hpar]
  · intro st st1 n p pp hset hpar hfind
    simp only [set_issue_tree_priority_with_inheritance, hset, hpar, hfind]

/-- Witness for C7: a child key `1.1` inherits `status-build` from the
issue holding `priority-1`. -/
theorem status_inheritance_spec_witness :
    set_issue_tree_priority_with_inheritance
        [⟨1, "", ["priority-1", "status-build"]⟩, ⟨2, "", ["status-plan"]⟩] 2 "7"
      = set_issue_tree_priority
        [⟨1, "", ["priority-1", "status-build"]⟩, ⟨2, "", ["status-plan"]⟩] 2 "7"
    ∧ statusLabels ((set_issue_tree_priority_with_inheritance
        [⟨1, "", ["priority-1", "status-build"]⟩, ⟨2, "", ["status-plan"]⟩] 2 "1.1").1) 2
      = ["status-" ++ get_issue_status
          [⟨1, "", ["priority-1", "status-build"]⟩, ⟨2, "", ["status-plan", "priority-1.1"]⟩] 1] :=
  ⟨status_inheritance_spec.1
      [⟨1, "", ["priority-1", "status-build"]⟩, ⟨2, "", ["status-plan"]⟩] 2 "7" (by decide),
   status_inheritance_spec.2.2.2
      [⟨1, "", ["priority-1", "status-build"]⟩, ⟨2, "", ["status-plan"]⟩]
      [⟨1, "", ["priority-1", "status-build"]⟩, ⟨2, "", ["status-plan", "priority-1.1"]⟩]
      2 1 "1.1" "1" (by decide) (by decide) (by decide) (by decide)⟩

/-- C10: `get_issue_status` returns `backlog` when the issue carries no
`status-` label and on lookup failure; consequently, when the parent issue
exists but carries no status label, the inheritance call writes
`status-backlog` onto the child instead of leaving its status untouched. -/
theorem get_issue_status_defaults_to_backlog :
    (∀ (st : Store) (n : Nat) (i : Issue),
        st.find? (fun x => x.number == n) = some i →
        i.labels.find? (fun l => sStartsWith l "status-") = none →
        get_issue_status st n = "backlog")
    ∧ (∀ (st : Store) (n : Nat),
        st.find? (fun x => x.number == n) = none →
        get_issue_status st n = "backlog")
    ∧ (∀ (st st1 : Store) (n q : Nat) (p pp : String),
        (∀ i ∈ st, i.labels.Nodup) →
        set_issue_tree_priority st n p = (st1, true) →
        get_parent_priority p = some pp →
        find_issue_by_priority st1 pp = some q →
        get_issue_status st1 q = "backlog" →
        statusLabels ((set_issue_tree_priority_with_inheritance st n p).1) n
          = ["status-backlog"]) := by
  refine ⟨?_, ?_, ?_⟩
  · intro st n i hfind hstat
    simp only [get_issue_status, hfind, hstat]
  · intro st n hfind
    simp only [get_issue_status, hfind]
  · intro st st1 n q p pp hwf hset hpar hfind hstatus
    rw [inheritance_writes_status st st1 n q p pp hwf hset hpar hfind, hstatus]
    rfl

/-- Witness for C10: issue 2 gains key `1.1` under a parent with no status
label and ends with exactly `status-backlog`. -/
theorem get_issue_status_defaults_to_backlog_witness :
    get_issue_status [⟨1, "", ["priority-1"]⟩, ⟨2, "", []⟩] 1 = "backlog"
    ∧ get_issue_status [⟨1, "", ["priority-1"]⟩, ⟨2, "", []⟩] 99 = "backlog"
    ∧ statusLabels ((set_issue_tree_priority_with_inheritance
        [⟨1, "", ["priority-1"]⟩, ⟨2, "", []⟩] 2 "1.1").1) 2 = ["status-backlog"] :=
  ⟨get_issue_status_defaults_to_backlog.1
      [⟨1, "", ["priority-1"]⟩, ⟨2, "", []⟩] 1 ⟨1, "", ["priority-1"]⟩
      (by decide) (by decide),
   get_issue_status_defaults_to_backlog.2.1
      [⟨1, "", ["priority-1"]⟩, ⟨2, "", []⟩] 99 (by decide),
   get_issue_status_defaults_to_backlog.2.2
      [⟨1, "", ["priority-1"]⟩, ⟨2, "", []⟩]
      [⟨1, "", ["priority-1"]⟩, ⟨2, "", ["priority-1.1"]⟩] 2 1 "1.1" "1"
      (by decide) (by decide) (by decide) (by decide) (by decide)⟩

/-- C6: `batch_update_priorities_and_statuses` runs its three phases
strictly in order — remove every existing `priority-`/`status-` label,
then add the new priority labels, then add the new status labels; a phase
whose batch signals a non-zero return code makes it return `False` without
executing any later phase, and the label changes already applied by
earlier phases are not rolled back. -/
theorem batch_update_phase_order_and_abort (rc : List GhCmd → Int)
    (iss : List Nat) (pu su : List (Nat × String)) (st : Store) :
    ((removal_commands iss st ≠ [] → rc (removal_commands iss st) = 0) →
      (priority_commands pu ≠ [] → rc (priority_commands pu) = 0) →
      (status_commands su ≠ [] → rc (status_commands su) = 0) →
      batch_update_priorities_and_statuses rc iss pu su st
        = (true, applyCmds (status_commands su)
            (applyCmds (priority_commands pu)
              (applyCmds (removal_commands iss st) st))))
    ∧ (removal_commands iss st ≠ [] → rc (removal_commands iss st) ≠ 0 →
        batch_update_priorities_and_statuses rc iss pu su st
          = (false, applyCmds (removal_commands iss st) st))
    ∧ ((removal_commands iss st ≠ [] → rc (removal_commands iss st) = 0) →
        priority_commands pu ≠ [] → rc (priority_commands pu) ≠ 0 →
        batch_update_priorities_and_statuses rc iss pu su st
          = (false, applyCmds (priority_commands pu)
              (applyCmds (removal_commands iss st) st)))
    ∧ ((removal_commands iss st ≠ [] → rc (removal_commands iss st) = 0) →
        (priority_commands pu ≠ [] → rc (priority_commands pu) = 0) →
        status_commands su ≠ [] → rc (status_commands su) ≠ 0 →
        batch_update_priorities_and_statuses rc iss pu su st
          = (false, applyCmds (status_commands su)
              (applyCmds (priority_commands pu)
                (applyCmds (removal_commands iss st) st)))) := by
  refine ⟨?_, ?_, ?_, ?_⟩
  · intro h1 h2 h3
    unfold batch_update_priorities_and_statuses
    rw [run_phases_cons_pass rc _ _ _ h1, run_phases_cons_pass rc _ _ _ h2,
      run_phases_cons_pass rc _ _ _ h3, run_phases_nil]
  · intro h1 h2
    unfold batch_update_priorities_and_statuses
    rw [run_phases_cons_fail rc _ _ _ h1 h2]
  · intro h1 h2 h3
    unfold batch_update_priorities_and_statuses
    rw [run_phases_cons_pass rc _ _ _ h1, run_phases_cons_fail rc _ _ _ h2 h3]
  · intro h1 h2 h3 h4
    unfold batch_update_priorities_and_statuses
    rw [run_phases_cons_pass rc _ _ _ h1, run_phases_cons_pass rc _ _ _ h2,
      run_phases_cons_fail rc _ _ _ h3 h4]

/-- Witness for C6: a passing run applies A, B, C in order; a failing
removal phase aborts with only A's effects applied. -/
theorem batch_update_phase_order_and_abort_witness :
    batch_update_priorities_and_statuses (fun _ => 0) [1, 2] [(1, "2")] [(2, "build")]
        [⟨1, "", ["priority-1", "status-build", "bug"]⟩, ⟨2, "", ["status-plan"]⟩]
      = (true, applyCmds (status_commands [(2, "build")])
          (applyCmds (priority_commands [(1, "2")])
            (applyCmds (removal_commands [1, 2]
                [⟨1, "", ["priority-1", "status-build", "bug"]⟩, ⟨2, "", ["status-plan"]⟩])
              [⟨1, "", ["priority-1", "status-build", "bug"]⟩, ⟨2, "", ["status-plan"]⟩])))
    ∧ batch_update_priorities_and_statuses (fun _ => 1) [1, 2] [(1, "2")] [(2, "build")]
        [⟨1, "", ["priority-1", "status-build", "bug"]⟩, ⟨2, "", ["status-plan"]⟩]
      = (false, applyCmds (removal_commands [1, 2]
            [⟨1, "", ["priority-1", "status-build", "bug"]⟩, ⟨2, "", ["status-plan"]⟩])
          [⟨1, "", ["priority-1", "status-build", "bug"]⟩, ⟨2, "", ["status-plan"]⟩]) :=
  ⟨(batch_update_phase_order_and_abort (fun _ => 0) [1, 2] [(1, "2")] [(2, "build")]
      [⟨1, "", ["priority-1", "status-build", "bug"]⟩, ⟨2, "", ["status-plan"]⟩]).1
      (fun _ => rfl) (fun _ => rfl) (fun _ => rfl),
   (batch_update_phase_order_and_abort (fun _ => 1) [1, 2] [(1, "2")] [(2, "build")]
      [⟨1, "", ["priority-1", "status-build", "bug"]⟩, ⟨2, "", ["status-plan"]⟩]).2.1
      (by decide) (by decide)⟩

/-- Witness for C8: the general clauses applied at concrete inputs. -/
theorem parse_tree_priority_total_spec_witness :
    parse_tree_priority "2.7" = [2, 7] ∧ parse_tree_priority "x.y" = [999]
      ∧ pyListLt [3, 1] [999] = true :=
  ⟨parse_tree_priority_total_spec.2.1 "2.7" [2, 7]
      (by decide) (by decide) (by decide) (by decide),
   parse_tree_priority_total_spec.2.2.1 "x.y"
      (by decide) (by decide) (by decide) (by decide),
   parse_tree_priority_total_spec.2.2.2.2 3 [1] (by decide)⟩

/-- C1 (amended).  Pre-order key assignment by `sync_slot_map_to_priorities`:
(roots) when the flattened entries carry distinct issue ids and distinct lane
positions, the root entries — lanes in `lane_order`, roots of each lane in
slot order, i.e. `root_order` — receive the top-level keys 1, 2, 3, … in that
order; (children) one recursion step on a child entry records the parent's
key extended with a single component equal to `countChildren + 1`, where
`countChildren` counts every already-assigned key that extends the parent's
key by a dot — all recorded descendants, not only direct children — and then
recurses over the entry's recorded children in slot-map order. -/
theorem sync_preorder_key_assignment :
    (∀ (sm : SlotMap),
      ((flatten_slot_issues sm).map (fun e => e.issueId)).Nodup →
      ((flatten_slot_issues sm).map (fun e => e.lane_position)).Nodup →
      ∀ (j : Nat) (hj : j < (root_order sm).length),
        dictGet (sync_priority_map sm) (((root_order sm).get ⟨j, hj⟩).issueId)
          = some (toString (j + 1)))
    ∧ (∀ (sis : List SlotIssue) (fuel : Nat) (issue : SlotIssue) (pp : String)
        (st : SyncState),
        assign_priority sis (fuel + 1) issue (some pp) st
          = (lane_parent_children sis issue.lane_position).foldl
              (fun acc child_pos =>
                match sis.find? (fun i => i.lane_position == child_pos) with
                | some child =>
                  assign_priority sis fuel child
                    (some (pp ++ "." ++ toString (countChildren st.priority_map pp + 1)))
                    acc
                | none => acc)
              ⟨dictSet st.priority_map issue.issueId
                  (pp ++ "." ++ toString (countChildren st.priority_map pp + 1)),
                st.global_counter⟩) := by
  constructor
  · intro sm hids hpos j hj
    exact sync_priority_map_roots sm hids hpos j hj
  · intro sis fuel issue pp st
    rfl

/-- Counterexample to C1 as stated: in the slot map with lane `learn` holding
issue 10 at slot 0, issue 11 at slot 1 as a child of slot 0, issue 12 at
slot 2 as a child of slot 1, and issue 13 at slot 3 as a child of slot 0,
issue 13 is the *second direct child* of issue 10 in slot order, so the
claim requires its key to end in component 2 (`"1.2"`).  The code instead
counts every already-assigned key under `"1."` — including the grandchild
12's `"1.1.1"` — and assigns `"1.3"`. -/
theorem sync_direct_child_numbering_cex :
    dictGet (sync_priority_map
        [("learn", [⟨10, none⟩, ⟨11, some 0⟩, ⟨12, some 1⟩, ⟨13, some 0⟩])]) 13
      = some "1.3"
    ∧ dictGet (sync_priority_map
        [("learn", [⟨10, none⟩, ⟨11, some 0⟩, ⟨12, some 1⟩, ⟨13, some 0⟩])]) 12
      = some "1.1.1"
    ∧ some "1.3" ≠ some "1.2" := by
  exact ⟨by decide, by decide, by decide⟩

/-- Witness for C1: the root clause applied to a concrete slot map with
roots in two lanes; the second root overall (issue 20, the first root of
lane `build`) receives key `"2"`. -/
theorem sync_preorder_key_assignment_witness :
    (((flatten_slot_issues
        [("learn", [⟨10, none⟩]), ("build", [⟨20, none⟩, ⟨22, none⟩])]).map
          (fun e => e.issueId)).Nodup
      ∧ ((flatten_slot_issues
        [("learn", [⟨10, none⟩]), ("build", [⟨20, none⟩, ⟨22, none⟩])]).map
          (fun e => e.lane_position)).Nodup)
    ∧ dictGet (sync_priority_map
          [("learn", [⟨10, none⟩]), ("build", [⟨20, none⟩, ⟨22, none⟩])])
        (((root_order
            [("learn", [⟨10, none⟩]), ("build", [⟨20, none⟩, ⟨22, none⟩])]).get
          ⟨1, by decide⟩).issueId)
      = some "2" := by
  refine ⟨⟨by decide, by decide⟩, ?_⟩
  have h := sync_preorder_key_assignment.1
    [("learn", [⟨10, none⟩]), ("build", [⟨20, none⟩, ⟨22, none⟩])]
    (by decide) (by decide) 1 (by decide)
  exact h.trans (by decide)

end TreeKanban
